import Mathlib

namespace BT

/-- Search result of a binary search inside one node, from
src/lib/node/search_status.rs. -/
inductive SearchStatus where
  | Found (i : Nat)
  | NotFound (i : Nat)
deriving DecidableEq, Repr

def SearchStatus.isFound : SearchStatus → Bool
  | .Found _ => true
  | .NotFound _ => false

def SearchStatus.unwrap : SearchStatus → Nat
  | .Found v => v
  | .NotFound v => v

/-- A B-tree node, from src/lib/node/mod.rs. The Rc/RefCell graph is
embedded as an arena: nodes live in a list and refer to each other by index.
The stored min_keys field is recomputed from order on demand. -/
structure Node where
  parent : Option Nat
  indexInParent : Option Nat
  keys : List Nat
  children : List Nat
  order : Nat
deriving DecidableEq, Repr

/-- min number of keys, ceil(order/2) - 1; the source computes this with an
f32 ceiling, which agrees with (order + 1) / 2 for all representable orders. -/
def Node.minKeys (n : Node) : Nat := (n.order + 1) / 2 - 1

def Node.new (order : Nat) : Node :=
  { parent := none, indexInParent := none, keys := [], children := [], order }

def Node.isRoot (n : Node) : Bool := n.parent = none

def Node.isLeaf (n : Node) : Bool := n.children.isEmpty

def Node.isKeyOverflowing (n : Node) : Bool := n.keys.length > n.order - 1

def Node.hasMinKeyCount (n : Node) : Bool :=
  if n.isRoot then n.keys.length == 1 else n.keys.length == n.minKeys

def Node.hasMoreThanMinKeys (n : Node) : Bool :=
  if n.isRoot then n.keys.length > 1 else n.keys.length > n.minKeys

/-- Arena read; a failed lookup models dereferencing a dangling reference,
which cannot happen for arenas built by the embedded operations. -/
def getNode (nodes : List Node) (id : Nat) : Except String Node :=
  match nodes.get? id with
  | some n => .ok n
  | none => .error "invalid node id"

def setNode (nodes : List Node) (id : Nat) (n : Node) : List Node :=
  nodes.set id n

/-- Vec::swap. -/
def listSwap (l : List α) (i j : Nat) : List α :=
  match l.get? i, l.get? j with
  | some a, some b => (l.set i b).set j a
  | _, _ => l

/-- Vec::pop: removes and returns the last element. -/
def listPop (l : List α) : Option (List α × α) :=
  match l with
  | [] => none
  | [a] => some ([], a)
  | a :: b :: rest =>
    match listPop (b :: rest) with
    | some (rest', last) => some (a :: rest', last)
    | none => none

/-- Repeated Vec::pop; returns the remaining list and the popped elements in
pop order (last element of the input first). -/
def popMany (l : List α) : Nat → Except String (List α × List α)
  | 0 => .ok (l, [])
  | n + 1 =>
    match listPop l with
    | none => .error "panic: pop on empty vec"
    | some (l', last) => do
      let (rem, popped) ← popMany l' n
      .ok (rem, last :: popped)

/-- Vec::remove(i): returns the removed value and the remaining list;
panics (error) when the index is out of bounds. -/
def removeGet (l : List α) (i : Nat) : Except String (α × List α) :=
  match l.get? i with
  | some a => .ok (a, l.eraseIdx i)
  | none => .error "panic: removal index out of bounds"

/-- The shifting loop of Node::add_key (src/lib/node/mod.rs).  The Rust
while-loop is modelled with fuel; the callers supply enough fuel for the
loop's bounded walk. -/
def addKeyLoop : Nat → List Nat → Nat → Nat → Except String (List Nat)
  | 0, _, _, _ => .error "loop fuel exhausted"
  | fuel + 1, keys, newIdx, curIdx =>
    if keys.getD newIdx 0 < keys.getD curIdx 0 then
      let keys := listSwap keys newIdx curIdx
      if 0 < curIdx then addKeyLoop fuel keys curIdx (curIdx - 1)
      else addKeyLoop fuel keys newIdx curIdx
    else .ok keys

/-- Node::add_key: push the key then shift it left into sorted position. -/
def Node.addKey (n : Node) (key : Nat) : Except String Node := do
  let keys := n.keys ++ [key]
  let newIdx := keys.length - 1
  if newIdx = 0 then .ok { n with keys }
  else do
    let keys ← addKeyLoop (keys.length + 2) keys newIdx (newIdx - 1)
    .ok { n with keys }

/-- calculate_mid from src/lib/node/node_utils.rs; operands are isize, but
every call site has end >= start >= 0 so Int division matches. -/
def calculateMid (start end_ : Int) : Int := (end_ - start) / 2 + start

/-- The binary-search loop of Node::find_key_index.  Reaching the end of the
while loop is the source's panic; running out of fuel cannot happen with the
fuel supplied by find_key_index. -/
def findKeyIndexLoop (keys : List Nat) (key : Nat) :
    Nat → Int → Int → Except String SearchStatus
  | 0, _, _ => .error "loop fuel exhausted"
  | fuel + 1, start, end_ =>
    if end_ ≥ start then
      let mid : Int := calculateMid start end_
      let midIdx : Nat := mid.toNat
      if keys.getD midIdx 0 = key then .ok (.Found midIdx)
      else if midIdx = 0 ∧ keys.getD midIdx 0 > key then .ok (.NotFound midIdx)
      else if midIdx = keys.length - 1 ∧ keys.getD midIdx 0 < key then
        .ok (.NotFound (midIdx + 1))
      else if keys.getD midIdx 0 > key ∧ keys.getD (midIdx - 1) 0 < key then
        .ok (.NotFound midIdx)
      else if keys.getD midIdx 0 > key then
        findKeyIndexLoop keys key fuel start (mid - 1)
      else
        findKeyIndexLoop keys key fuel (mid + 1) end_
    else .error "panic: unable to find value"

/-- Node::find_key_index. -/
def Node.findKeyIndex (n : Node) (key : Nat) : Except String SearchStatus :=
  if n.keys.isEmpty then .ok (.NotFound 0)
  else findKeyIndexLoop n.keys key (n.keys.length + 1) 0 ((n.keys.length : Int) - 1)

/-- Node::try_clone_child (src/lib/node/node_child_operations.rs): only
emptiness and negativity are checked; an in-range check is absent, so a
non-negative index past the end of a non-empty children list hits the Rust
index-out-of-bounds panic. -/
def Node.tryCloneChild (n : Node) (index : Int) : Except String (Option Nat) :=
  if n.children.isEmpty || index < 0 then .ok none
  else
    match n.children.get? index.toNat with
    | some c => .ok (some c)
    | none => .error "panic: index out of bounds"

/-- Helper for Node::split_node: each popped child records the right node as
parent and its pop position as index_in_parent (the source's
((mid+1)..child_len).rev().enumerate() pairs pop order with indices 0,1,...). -/
def setPoppedChildrenMeta : List Node → List Nat → Nat → Nat → List Node
  | nodes, [], _, _ => nodes
  | nodes, c :: cs, rightId, j =>
    let nodes :=
      match nodes.get? c with
      | some cn => setNode nodes c { cn with parent := some rightId, indexInParent := some j }
      | none => nodes
    setPoppedChildrenMeta nodes cs rightId (j + 1)

/-- Node::split_node: pops keys past the middle into a fresh right node,
moves trailing children there, and returns the middle key together with the
id of the new right node. -/
def splitNode (nodes : List Node) (id : Nat) : Except String (Nat × Nat × List Node) := do
  let n ← getNode nodes id
  let keyLen := n.keys.length
  let childLen := n.children.length
  let midKeyIdx := keyLen / 2
  let rightId := nodes.length
  let (keysRem, poppedKeys) ← popMany n.keys (keyLen - (midKeyIdx + 1))
  let rightKeys := poppedKeys.reverse
  let (childRem, poppedChildren) ← popMany n.children (childLen - (midKeyIdx + 1))
  let nodes := setPoppedChildrenMeta nodes poppedChildren rightId 0
  let rightChildren := poppedChildren.reverse
  match listPop keysRem with
  | none => .error "panic: pop on empty vec"
  | some (keysRem2, midKey) =>
    let nodes := setNode nodes id { n with keys := keysRem2, children := childRem }
    let right : Node :=
      { parent := n.parent, indexInParent := none,
        keys := rightKeys, children := rightChildren, order := n.order }
    .ok (midKey, rightId, nodes ++ [right])

/-- Node::merge_children: append the keys and children of children[from]
into children[into] and drop the from-slot, or report an error for
non-adjacent indices before any mutation. -/
def mergeChildren (nodes : List Node) (id : Nat) (mergeIntoIndex mergeFromIndex : Nat) :
    Except String (Option String × List Node) := do
  let n ← getNode nodes id
  let diff := ((mergeIntoIndex : Int) - (mergeFromIndex : Int)).natAbs
  if diff ≠ 1 then .ok (some "The children must be next to each other", nodes)
  else do
    let intoId ← (match n.children.get? mergeIntoIndex with
      | some c => .ok c
      | none => .error "panic: index out of bounds")
    let fromId ← (match n.children.get? mergeFromIndex with
      | some c => .ok c
      | none => .error "panic: index out of bounds")
    if intoId = fromId then .error "panic: already mutably borrowed"
    else do
      let intoN ← getNode nodes intoId
      let fromN ← getNode nodes fromId
      let nodes := setNode nodes intoId
        { intoN with keys := intoN.keys ++ fromN.keys,
                     children := intoN.children ++ fromN.children }
      let nodes := setNode nodes fromId { fromN with keys := [], children := [] }
      let n2 ← getNode nodes id
      let (_, children') ← removeGet n2.children mergeFromIndex
      .ok (none, setNode nodes id { n2 with children := children' })

/-- Node::update_children_indexes: store each child's position into its
index_in_parent field. -/
def updateChildrenIndexesLoop : List Node → List Nat → Nat → List Node
  | nodes, [], _ => nodes
  | nodes, c :: cs, i =>
    let nodes :=
      match nodes.get? c with
      | some cn => setNode nodes c { cn with indexInParent := some i }
      | none => nodes
    updateChildrenIndexesLoop nodes cs (i + 1)

def updateChildrenIndexes (nodes : List Node) (id : Nat) : Except String (List Node) := do
  let n ← getNode nodes id
  .ok (updateChildrenIndexesLoop nodes n.children 0)

/-- The ordering walk of Node::add_child: compare the new child's minimum key
with the preceding child's maximum key and swap downward until ordered.  The
source's while loop is modelled with fuel (the loop genuinely diverges when a
minimum key equals a maximum key at index 0, which distinct keys rule out). -/
def addChildLoop (nodes : List Node) : Nat → List Nat → Nat → Nat → Except String (List Nat)
  | 0, _, _, _ => .error "loop fuel exhausted"
  | fuel + 1, children, newIdx, curIdx => do
    let curId ← (match children.get? curIdx with
      | some c => .ok c
      | none => .error "panic: index out of bounds")
    let newId ← (match children.get? newIdx with
      | some c => .ok c
      | none => .error "panic: index out of bounds")
    let curN ← getNode nodes curId
    let newN ← getNode nodes newId
    let currentVal ← (match curN.keys.getLast? with
      | some v => .ok v
      | none => .error "panic: index out of bounds")
    let newChildVal ← (match newN.keys.head? with
      | some v => .ok v
      | none => .error "panic: index out of bounds")
    if newChildVal > currentVal then .ok children
    else
      let children := listSwap children newIdx curIdx
      if 0 < curIdx then addChildLoop nodes fuel children curIdx (curIdx - 1)
      else addChildLoop nodes fuel children newIdx curIdx

/-- Node::add_child: push the child, record its index, shift it into range
order, then refresh every child's recorded index. -/
def addChild (nodes : List Node) (id : Nat) (childId : Nat) : Except String (List Node) := do
  let n ← getNode nodes id
  let children := n.children ++ [childId]
  let newChildIdx := children.length - 1
  let c ← getNode nodes childId
  let nodes := setNode nodes childId { c with indexInParent := some newChildIdx }
  if newChildIdx = 0 then .ok (setNode nodes id { n with children })
  else do
    let children ← addChildLoop nodes (children.length + 2) children newChildIdx (newChildIdx - 1)
    let nodes := setNode nodes id { n with children }
    updateChildrenIndexes nodes id

inductive BTreeError where
  | ValueAlreadyExists
  | NotFound
deriving DecidableEq, Repr

/-- The B-tree controller from src/lib/lib.rs; the owning Rc graph is the
arena in nodes and root is the arena id of the root node. -/
structure BTree where
  nodes : List Node
  root : Nat
  order : Nat
deriving DecidableEq, Repr

def BTree.new (order : Nat) : BTree :=
  { nodes := [Node.new order], root := 0, order }

/-- The descent loop of BTree::find. -/
def findLoop (nodes : List Node) (key : Nat) : Nat → Nat → Except String (SearchStatus × Nat)
  | 0, _ => .error "loop fuel exhausted"
  | fuel + 1, id => do
    let n ← getNode nodes id
    let sr ← n.findKeyIndex key
    if sr.isFound then .ok (sr, id)
    else
      match ← n.tryCloneChild (sr.unwrap : Int) with
      | none => .ok (sr, id)
      | some child => findLoop nodes key fuel child

def BTree.find (t : BTree) (value : Nat) : Except String (SearchStatus × Nat) :=
  findLoop t.nodes value (t.nodes.length + 1) t.root

/-- BTree::find_insert_node. -/
def BTree.findInsertNode (t : BTree) (value : Nat) : Except String (Except BTreeError Nat) := do
  let (status, insertNode) ← t.find value
  if status.isFound then .ok (.error .ValueAlreadyExists)
  else .ok (.ok insertNode)

/-- The loop of BTree::split_if_full, walking up the parent chain as long as
the current node overflows. -/
def splitIfFullLoop (order : Nat) : Nat → List Node → Nat → Nat → Except String (List Node × Nat)
  | 0, _, _, _ => .error "loop fuel exhausted"
  | fuel + 1, nodes, root, id => do
    let n ← getNode nodes id
    if ¬ n.isKeyOverflowing then .ok (nodes, root)
    else do
      let (midKey, rightId, nodes) ← splitNode nodes id
      let n2 ← getNode nodes id
      match n2.parent with
      | some parentId => do
        let r ← getNode nodes rightId
        let nodes := setNode nodes rightId { r with parent := some parentId }
        let nd ← getNode nodes id
        let nodes := setNode nodes id { nd with parent := some parentId }
        let p ← getNode nodes parentId
        let p ← p.addKey midKey
        let nodes := setNode nodes parentId p
        let nodes ← addChild nodes parentId rightId
        splitIfFullLoop order fuel nodes root parentId
      | none => do
        let newParentId := nodes.length
        let nodes := nodes ++ [Node.new order]
        let root := newParentId
        let r ← getNode nodes rightId
        let nodes := setNode nodes rightId { r with parent := some newParentId }
        let nd ← getNode nodes id
        let nodes := setNode nodes id { nd with parent := some newParentId }
        let p ← getNode nodes newParentId
        let p ← p.addKey midKey
        let nodes := setNode nodes newParentId p
        let nodes ← addChild nodes newParentId id
        let nodes ← addChild nodes newParentId rightId
        splitIfFullLoop order fuel nodes root newParentId

def BTree.splitIfFull (t : BTree) (id : Nat) : Except String BTree := do
  let (nodes, root) ← splitIfFullLoop t.order (t.nodes.length + 2) t.nodes t.root id
  .ok { t with nodes, root }

/-- BTree::add.  The pair result carries the Rust Result (none = Ok) together
with the tree state after the call, so that no-mutation-on-error is a
statement about the returned tree. -/
def BTree.add (t : BTree) (value : Nat) : Except String (Option BTreeError × BTree) := do
  match ← t.findInsertNode value with
  | .error e => .ok (some e, t)
  | .ok nodeId => do
    let n ← getNode t.nodes nodeId
    let n ← n.addKey value
    let t1 : BTree := { t with nodes := setNode t.nodes nodeId n }
    let t2 ← t1.splitIfFull nodeId
    .ok (none, t2)

/-- Modelled from the spec: Node::try_clone_left_sibling is called in
src/lib/btree_delete_leaf.rs but its definition is missing from the sources.
Per the spec, sibling navigation goes through the recorded parent and
index_in_parent, and the leftmost child has no left sibling. -/
def tryCloneLeftSibling (nodes : List Node) (id : Nat) : Except String (Option Nat) := do
  let n ← getNode nodes id
  match n.parent, n.indexInParent with
  | some p, some i =>
    if i = 0 then .ok none
    else do
      let pn ← getNode nodes p
      .ok (pn.children.get? (i - 1))
  | _, _ => .ok none

/-- Modelled from the spec: Node::try_clone_right_sibling is called in
src/lib/btree_delete_leaf.rs but its definition is missing from the sources.
Per the spec, the rightmost child has no right sibling. -/
def tryCloneRightSibling (nodes : List Node) (id : Nat) : Except String (Option Nat) := do
  let n ← getNode nodes id
  match n.parent, n.indexInParent with
  | some p, some i => do
    let pn ← getNode nodes p
    .ok (pn.children.get? (i + 1))
  | _, _ => .ok none

/-- Modelled from the spec: Node::merge_node is called by
BTree::merge_with_left and merge_with_right but its definition is missing
from the sources.  Per the spec's merge description, the absorbing node
appends the absorbed node's keys and children, and the now-empty child slot
is removed from the absorbed node's parent (with indexes refreshed). -/
def mergeNode (nodes : List Node) (selfId otherId : Nat) : Except String (List Node) := do
  let s ← getNode nodes selfId
  let o ← getNode nodes otherId
  let nodes := setNode nodes selfId
    { s with keys := s.keys ++ o.keys, children := s.children ++ o.children }
  let nodes := setNode nodes otherId { o with keys := [], children := [] }
  match o.parent, o.indexInParent with
  | some p, some i => do
    let pn ← getNode nodes p
    let (_, children') ← removeGet pn.children i
    let nodes := setNode nodes p { pn with children := children' }
    updateChildrenIndexes nodes p
  | _, _ => .ok nodes

/-- BTree::move_from_left (src/lib/btree_delete_leaf.rs). -/
def moveFromLeft (nodes : List Node) (leftId parentId movedToId : Nat) :
    Except String (List Node) := do
  let l ← getNode nodes leftId
  match listPop l.keys with
  | none => .error "panic: pop on empty vec"
  | some (lkeys, leftKey) => do
    let nodes := setNode nodes leftId { l with keys := lkeys }
    let m ← getNode nodes movedToId
    let idx ← (match m.indexInParent with
      | some i => .ok i
      | none => .error "panic: unwrap on None")
    let p ← getNode nodes parentId
    let (parentKeyToRotate, pkeys) ← removeGet p.keys idx
    let p2 ← Node.addKey { p with keys := pkeys } leftKey
    let nodes := setNode nodes parentId p2
    let m2 ← m.addKey parentKeyToRotate
    .ok (setNode nodes movedToId m2)

/-- BTree::move_from_right (src/lib/btree_delete_leaf.rs). -/
def moveFromRight (nodes : List Node) (rightId parentId movedToId : Nat) :
    Except String (List Node) := do
  let r ← getNode nodes rightId
  let (rightKey, rkeys) ← removeGet r.keys 0
  let nodes := setNode nodes rightId { r with keys := rkeys }
  let m ← getNode nodes movedToId
  let idx ← (match m.indexInParent with
    | some i => .ok i
    | none => .error "panic: unwrap on None")
  let p ← getNode nodes parentId
  let (parentKeyToRotate, pkeys) ← removeGet p.keys idx
  let p2 ← Node.addKey { p with keys := pkeys } rightKey
  let nodes := setNode nodes parentId p2
  let m2 ← m.addKey parentKeyToRotate
  .ok (setNode nodes movedToId m2)

/-- BTree::merge_with_left (src/lib/btree_delete_leaf.rs). -/
def mergeWithLeft (nodes : List Node) (leftSiblingId parentId movedToId : Nat) :
    Except String (List Node) := do
  let m ← getNode nodes movedToId
  let idx ← (match m.indexInParent with
    | some i => .ok i
    | none => .error "panic: unwrap on None")
  let p ← getNode nodes parentId
  let (parentKey, pkeys) ← removeGet p.keys idx
  let nodes := setNode nodes parentId { p with keys := pkeys }
  let l ← getNode nodes leftSiblingId
  let l2 ← l.addKey parentKey
  let nodes := setNode nodes leftSiblingId l2
  mergeNode nodes leftSiblingId movedToId

/-- BTree::merge_with_right (src/lib/btree_delete_leaf.rs). -/
def mergeWithRight (nodes : List Node) (rightSiblingId parentId movedToId : Nat) :
    Except String (List Node) := do
  let m ← getNode nodes movedToId
  let idx ← (match m.indexInParent with
    | some i => .ok i
    | none => .error "panic: unwrap on None")
  let p ← getNode nodes parentId
  let (parentKey, pkeys) ← removeGet p.keys (idx + 1)
  let nodes := setNode nodes parentId { p with keys := pkeys }
  let r ← getNode nodes rightSiblingId
  let r2 ← r.addKey parentKey
  let nodes := setNode nodes rightSiblingId r2
  mergeNode nodes rightSiblingId movedToId

/-- BTree::delete_leaf (src/lib/btree_delete_leaf.rs): remove the key at
key_index from the given node, then, if the node fell below its minimum,
try borrow-from-left, borrow-from-right, merge-with-left, merge-with-right
in that order. -/
def deleteLeaf (nodes : List Node) (id : Nat) (keyIndex : Nat) : Except String (List Node) := do
  let n ← getNode nodes id
  let (_, keys') ← removeGet n.keys keyIndex
  let cur := { n with keys := keys' }
  let nodes := setNode nodes id cur
  if cur.hasMoreThanMinKeys || cur.hasMinKeyCount then .ok nodes
  else do
    let parentId ← (match cur.parent with
      | some p => .ok p
      | none => .error "panic: unwrap on None")
    let leftOpt ← tryCloneLeftSibling nodes id
    let borrowLeft ← (match leftOpt with
      | some leftId => do
        let ln ← getNode nodes leftId
        .ok (if ln.hasMoreThanMinKeys then some leftId else none)
      | none => .ok (none : Option Nat))
    match borrowLeft with
    | some leftId => moveFromLeft nodes leftId parentId id
    | none => do
      let rightOpt ← tryCloneRightSibling nodes id
      let borrowRight ← (match rightOpt with
        | some rightId => do
          let rn ← getNode nodes rightId
          .ok (if rn.hasMoreThanMinKeys then some rightId else none)
        | none => .ok (none : Option Nat))
      match borrowRight with
      | some rightId => moveFromRight nodes rightId parentId id
      | none => do
        match ← tryCloneLeftSibling nodes id with
        | some leftId => mergeWithLeft nodes leftId parentId id
        | none => do
          match ← tryCloneRightSibling nodes id with
          | some rightId => mergeWithRight nodes rightId parentId id
          | none => .ok nodes

/-- BTree::delete (src/lib/lib.rs): remove the found key, and when the node
became deficient and is a non-root leaf, invoke delete_leaf on the parent
node with the child's index_in_parent, exactly as the call site does. -/
def BTree.delete (t : BTree) (value : Nat) : Except String (Option BTreeError × BTree) := do
  let (status, nodeId) ← t.find value
  if ¬ status.isFound then .ok (some .NotFound, t)
  else do
    let n ← getNode t.nodes nodeId
    let keyIndexToDelete := status.unwrap
    let (_, keys') ← removeGet n.keys keyIndexToDelete
    let n2 := { n with keys := keys' }
    let nodes := setNode t.nodes nodeId n2
    let parent := n2.parent
    let isLeaf := n2.isLeaf
    if n2.hasMoreThanMinKeys || n2.hasMinKeyCount || parent.isNone then
      .ok (none, { t with nodes })
    else do
      let indexInParent ← (match n2.indexInParent with
        | some i => .ok i
        | none => .error "panic: unwrap on None")
      if ¬ isLeaf then .ok (none, { t with nodes })
      else do
        let parentId ← (match parent with
          | some p => .ok p
          | none => .error "panic: unwrap on None")
        let nodes ← deleteLeaf nodes parentId indexInParent
        .ok (none, { t with nodes })

/-- Run a sequence of adds, requiring every insertion to succeed. -/
def runAdds : BTree → List Nat → Except String BTree
  | t, [] => .ok t
  | t, v :: vs => do
    match ← t.add v with
    | (none, t2) => runAdds t2 vs
    | (some _, _) => .error "add reported an error"

/-! Analysis functions over the arena: fuelled traversals of the tree reached
from a node.  The fuel bounds the depth; one more than the arena size is
enough for every tree whose reachable ids are distinct. -/

/-- All node ids in the subtree of a node, in preorder. -/
def idsBelow : Nat → List Node → Nat → List Nat
  | 0, _, _ => []
  | fuel + 1, nodes, id =>
    match nodes.get? id with
    | none => []
    | some n => id :: (n.children.map (idsBelow fuel nodes)).flatten

/-- All keys in the subtree of a node, in preorder. -/
def keysBelow : Nat → List Node → Nat → List Nat
  | 0, _, _ => []
  | fuel + 1, nodes, id =>
    match nodes.get? id with
    | none => []
    | some n => n.keys ++ (n.children.map (keysBelow fuel nodes)).flatten

/-- Depths of all leaves in the subtree of a node. -/
def leafDepths : Nat → List Node → Nat → Nat → List Nat
  | 0, _, _, _ => []
  | fuel + 1, nodes, id, d =>
    match nodes.get? id with
    | none => []
    | some n =>
      if n.children.isEmpty then [d]
      else (n.children.map (fun c => leafDepths fuel nodes c (d + 1))).flatten

def nodeOkB (nodes : List Node) (id : Nat) (p : Node → Bool) : Bool :=
  match nodes.get? id with
  | some n => p n
  | none => false

def treeIds (t : BTree) : List Nat := idsBelow (t.nodes.length + 1) t.nodes t.root

def treeKeys (t : BTree) : List Nat := keysBelow (t.nodes.length + 1) t.nodes t.root

/-- Invariant 1 of the spec: keys within each node are sorted ascending and
unique. -/
def invSortedKeys (t : BTree) : Bool :=
  (treeIds t).all (fun id => nodeOkB t.nodes id (fun n => decide (n.keys.Pairwise (· < ·))))

/-- Invariant: every non-leaf node has exactly one more child than keys. -/
def invChildCount (t : BTree) : Bool :=
  (treeIds t).all (fun id =>
    nodeOkB t.nodes id (fun n =>
      n.children.isEmpty || (n.children.length == n.keys.length + 1)))

/-- Invariant: every node except the root holds at least min_keys keys. -/
def invMinKeys (t : BTree) : Bool :=
  (treeIds t).all (fun id =>
    (id == t.root) || nodeOkB t.nodes id (fun n => decide (n.keys.length ≥ n.minKeys)))

/-- Invariant: all leaves sit at the same depth. -/
def invLeafDepth (t : BTree) : Bool :=
  match leafDepths (t.nodes.length + 1) t.nodes t.root 0 with
  | [] => true
  | d :: ds => ds.all (· == d)

/-- Invariant: every child's recorded parent and index_in_parent match its
actual parent and position. -/
def invParentIndex (t : BTree) : Bool :=
  (treeIds t).all (fun id =>
    nodeOkB t.nodes id (fun n =>
      n.children.enum.all (fun ic =>
        nodeOkB t.nodes ic.2 (fun cn =>
          cn.parent == some id && cn.indexInParent == some ic.1))))

/-- All five structural invariants of the spec together. -/
def treeInvariants (t : BTree) : Bool :=
  invSortedKeys t && invChildCount t && invMinKeys t && invLeafDepth t && invParentIndex t

def rootKeys (t : BTree) : List Nat :=
  match t.nodes.get? t.root with
  | some n => n.keys
  | none => []

def rootChildKeyLists (t : BTree) : List (List Nat) :=
  (match t.nodes.get? t.root with
   | some n => n.children
   | none => []).map (fun c =>
    match t.nodes.get? c with
    | some cn => cn.keys
    | none => [])

/-! Concrete scenarios taken from the repository's own tests. -/

/-- The order-5 tree of test_leaf_delete_with_left_merge and of the spec's
concrete scenario. -/
def demoTree5 : Except String BTree :=
  runAdds (BTree.new 5) [0, 5, 10, 15, 20, 25, 30, 35, 40]

/-- The order-3 tree of test_leaf_delete_with_left_move. -/
def demoTree3 : Except String BTree := runAdds (BTree.new 3) [0, 5, 10, 15, 1]

/-- An internal node with three keys and four children, about to split. -/
def splitArena : List Node :=
  [ { parent := none, indexInParent := none, keys := [2, 4, 6], children := [1, 2, 3, 4], order := 3 },
    { parent := some 0, indexInParent := some 0, keys := [1], children := [], order := 3 },
    { parent := some 0, indexInParent := some 1, keys := [3], children := [], order := 3 },
    { parent := some 0, indexInParent := some 2, keys := [5], children := [], order := 3 },
    { parent := some 0, indexInParent := some 3, keys := [7], children := [], order := 3 } ]

/-- A node with one key and one child. -/
def oneChildNode : Node :=
  { parent := none, indexInParent := none, keys := [4], children := [1], order := 3 }

/-! Theorems settling the claims. -/

/-- The behaviour bundle established for one find_key_index result.  For a
NotFound answer it also records the boundary: everything before the returned
slot is below the key and everything from the slot on is above it. -/
def SearchSpec (keys : List Nat) (key : Nat) (r : SearchStatus) : Prop :=
  (∀ i, r = SearchStatus.Found i → ∃ h : i < keys.length, keys.get ⟨i, h⟩ = key) ∧
  (∀ j, r = SearchStatus.NotFound j →
    key ∉ keys ∧ j = keys.countP (fun k => decide (k < key)) ∧ j ≤ keys.length ∧
    (∀ (a : Fin keys.length),
      ((a : Nat) < j → keys.get a < key) ∧ (j ≤ (a : Nat) → key < keys.get a))) ∧
  (key ∈ keys → r.isFound = true)

/-- The key list of a node, empty for an invalid id. -/
def keysOfD (nodes : List Node) (id : Nat) : List Nat :=
  match nodes.get? id with
  | some n => n.keys
  | none => []

/-- Recursive search-tree well-formedness, fuelled like the traversals:
keys sorted and unique, non-leaves have keys+1 children, children are
recursively good, and the subtree keys of child i lie strictly between the
surrounding separators (below every separator at index at least i, above
every separator before i). -/
def goodB : Nat → List Node → Nat → Bool
  | 0, _, _ => false
  | fuel + 1, nodes, id =>
    match nodes.get? id with
    | none => false
    | some n =>
      decide (n.keys.Pairwise (· < ·)) &&
      (n.children.isEmpty ||
        ((n.children.length == n.keys.length + 1) &&
         n.children.all (fun c => goodB fuel nodes c) &&
         (List.range n.children.length).all (fun ci =>
           (keysBelow fuel nodes (n.children.getD ci 0)).all (fun k =>
             (List.range n.keys.length).all (fun kj =>
               if ci ≤ kj then decide (k < n.keys.getD kj 0)
               else decide (n.keys.getD kj 0 < k))))))

/-- Arena-wide structural facts used by the insertion proof: order at least
3 everywhere, child references valid and consistent with parent pointers,
non-root nodes have keys, keys sorted in every node, and no key occurs in
two nodes. -/
def ArenaWF (nodes : List Node) (order : Nat) : Prop :=
  3 ≤ order ∧
  (∀ i (h : i < nodes.length), (nodes.get ⟨i, h⟩).order = order) ∧
  (∀ i (h : i < nodes.length), ∀ c ∈ (nodes.get ⟨i, h⟩).children, c < nodes.length) ∧
  (∀ i (h : i < nodes.length), ∀ c ∈ (nodes.get ⟨i, h⟩).children,
    ∀ nc, nodes.get? c = some nc → nc.parent = some i) ∧
  (∀ i (h : i < nodes.length), (nodes.get ⟨i, h⟩).parent ≠ none →
    (nodes.get ⟨i, h⟩).keys ≠ []) ∧
  (∀ i j (hi : i < nodes.length) (hj : j < nodes.length), i ≠ j →
    ∀ x ∈ (nodes.get ⟨i, hi⟩).keys, x ∉ (nodes.get ⟨j, hj⟩).keys) ∧
  (∀ i (h : i < nodes.length), (nodes.get ⟨i, h⟩).keys.Pairwise (· < ·))

/-- Full well-formedness of a tree for the insertion theorem: arena facts,
a good search tree from the root, a rootless root, distinct reachable ids
and no unreachable nodes. -/
def TreeWF (t : BTree) : Prop :=
  ArenaWF t.nodes t.order ∧
  t.root < t.nodes.length ∧
  (∀ rn, t.nodes.get? t.root = some rn → rn.parent = none) ∧
  goodB (t.nodes.length + 1) t.nodes t.root = true ∧
  (treeIds t).Nodup ∧
  (∀ i, i < t.nodes.length → i ∈ treeIds t)

/-- The descent made by find for an absent key: each visited node routes the
key to the child at the NotFound slot, with the separation facts between the
other children and everything below the chosen child (or the key itself)
recorded along the way. -/
inductive FindPath (nodes : List Node) (key : Nat) : Nat → Nat → Nat → Prop where
  | stop (fuel id : Nat) (n : Node) (hn : nodes.get? id = some n)
      (hleaf : n.children = []) (hnot : key ∉ n.keys) :
      FindPath nodes key (fuel + 1) id id
  | step (fuel id child leafId : Nat) (n : Node) (j : Nat)
      (hn : nodes.get? id = some n)
      (hjv : j = n.keys.countP (fun k => decide (k < key)))
      (hnot : key ∉ n.keys)
      (hchild : n.children.get? j = some child)
      (hF : ∀ i (hi : i < n.children.length), i ≠ j →
        ∀ x ∈ keysOfD nodes (n.children.get ⟨i, hi⟩),
        ∀ y, (y ∈ keysBelow fuel nodes child ∨ y = key) →
        (i < j → x < y) ∧ (j < i → y < x))
      (hrest : FindPath nodes key fuel child leafId) :
      FindPath nodes key (fuel + 1) id leafId

/-- The upward chain from the insertion leaf with everything the split
cascade needs.  ys collects every key value that can bubble out of the
current subtree (the path node keys below, plus the inserted key); pb
collects the ids the cascade may have touched below the current node (the
path ids and their original children).  At each step the parent is reached
by the recorded parent pointer, the separations between ys and the other
children of the parent are known, ys avoids the parent's keys, and the
parent and its children are fresh with respect to pb. -/
inductive UpFacts (nodes : List Node) (key : Nat) : Nat → List Nat → List Nat → Nat → Prop where
  | root (id : Nat) (n : Node) (ys pb : List Nat) (hn : nodes.get? id = some n)
      (hp : n.parent = none) : UpFacts nodes key id ys pb 0
  | up (id p : Nat) (n pn : Node) (j : Nat) (ys pb : List Nat) (d : Nat)
      (hn : nodes.get? id = some n)
      (hparent : n.parent = some p)
      (hpn : nodes.get? p = some pn)
      (hchild : pn.children.get? j = some id)
      (hF : ∀ i (hi : i < pn.children.length), i ≠ j →
        ∀ x ∈ keysOfD nodes (pn.children.get ⟨i, hi⟩), ∀ y ∈ ys,
        (i < j → x < y) ∧ (j < i → y < x))
      (hdisj : ∀ y ∈ ys, y ∉ pn.keys)
      (hpf : p ∉ pb ∧ p ≠ id ∧ p ∉ n.children)
      (hsf : ∀ c ∈ pn.children, c ≠ id → c ∉ pb ∧ c ≠ id ∧ c ∉ n.children)
      (hnodup : pn.children.Nodup)
      (hps : p ∉ pn.children)
      (hrest : UpFacts nodes key p (ys ++ pn.keys) (pb ++ id :: n.children) d) :
      UpFacts nodes key id ys pb (d + 1)

/-- A concrete well-formed one-key tree used to witness the insertion
theorem. -/
def oneKeyNode : Node :=
  { parent := none, indexInParent := none, keys := [7], children := [], order := 3 }

def oneKeyTree : BTree := { nodes := [oneKeyNode], root := 0, order := 3 }

/-- C1: the round-trip property fails on the code.  In the order-5 tree built
from 0,5,...,40, the successful delete of 20 changes the answer of search for
key 25, which was inserted and never deleted: find reported Found for 25
before the delete and NotFound afterwards (delete_leaf, invoked on the parent
with the child's index_in_parent, removes the separator key 25 from the root
instead of repairing the deficient leaf).  This contradicts the repository's
own test_leaf_delete_with_left_merge. -/
theorem C1_roundtrip_code_bug :
    (do
      let t ← demoTree5
      let (e, t2) ← t.delete 20
      let foundBefore ← t.find 25
      let foundAfter ← t2.find 25
      pure (e, foundBefore.1.isFound, foundAfter.1.isFound)) =
    Except.ok (none, true, false) := by rfl

/-- C2: invariant preservation fails on the code.  All five invariants hold
for the order-5 tree built by successful adds, but after the successful
delete of 20 the root has one key and three children (child-count invariant
broken) and a leaf sits below min_keys (minimum-occupancy invariant broken),
contradicting the repository's own delete tests. -/
theorem C2_invariants_code_bug :
    (do
      let t ← demoTree5
      let (e, t2) ← t.delete 20
      pure (e, treeInvariants t, invChildCount t2, invMinKeys t2, treeInvariants t2)) =
    Except.ok (none, true, false, false, false) := by rfl

/-- C4: deleting a present key does not always return Ok.  In the order-3
tree of test_leaf_delete_with_left_move, after deleting 15 the key 10 is
still present (find reports Found), yet delete of 10 panics: delete hands
delete_leaf the parent node together with index_in_parent 1, and the
parent's single-key vector has no index 1 to remove. -/
theorem C4_delete_code_bug :
    (do
      let t ← demoTree3
      let (e1, t2) ← t.delete 15
      let p ← t2.find 10
      pure (e1, p.1.isFound, t2.delete 10)) =
    Except.ok (none, true, Except.error "panic: removal index out of bounds") := by rfl

/-- C5: the four-step repair is not what runs when a delete leaves a non-root
leaf deficient.  Deleting 20 from the order-5 tree leaves leaf [15] below
min_keys while its left sibling [0,5] is at the minimum and its right sibling
[30,35,40] is above it, so step (2), borrow from the right sibling, should
fire.  Instead the code removes the root separator 25 and leaves the
deficient leaf untouched, because delete passes the parent node to
delete_leaf, which removes parent.keys[index_in_parent], finds the root
satisfied, and returns without consulting any sibling. -/
theorem C5_repair_dispatch_code_bug :
    (do
      let t ← demoTree5
      let leftSib ← getNode t.nodes 0
      let rightSib ← getNode t.nodes 3
      let (e, t2) ← t.delete 20
      pure (leftSib.keys, leftSib.hasMoreThanMinKeys,
            rightSib.keys, rightSib.hasMoreThanMinKeys,
            e, rootKeys t2, rootChildKeyLists t2)) =
    Except.ok ([0, 5], false, [30, 35, 40], true, none, [10], [[0, 5], [15], [30, 35, 40]]) := by
  rfl

/-- C6: the spec's concrete order-5 scenario does not hold on the code.
After inserting 0,5,...,40 and deleting 20, the tree already has root keys
[10] with three children [0,5], [15], [30,35,40], and the subsequent delete
of 25 fails with NotFound (the separator 25 was removed from the root during
the first delete), leaving the tree unchanged, instead of yielding root [30]
with children [0,5,10,15] and [35,40] as the claim and the repository's own
test expect. -/
theorem C6_order5_scenario_code_bug :
    (do
      let t ← demoTree5
      let (e1, t2) ← t.delete 20
      let (e2, t3) ← t2.delete 25
      pure (e1, e2, rootKeys t3, rootChildKeyLists t3)) =
    Except.ok (none, some BTreeError.NotFound, [10], [[0, 5], [15], [30, 35, 40]]) := by rfl

/-- C7: split_node moves keys and the separator as claimed, but the moved
children's index_in_parent values are assigned in reverse.  Splitting the
node with keys [2,4,6] and children 1,2,3,4 returns separator 4 and a right
node (id 5) whose children list is [3,4]; both moved children record 5 as
parent, but child 3 at position 0 records index 1 and child 4 at position 1
records index 0, because the source enumerates the reversed range so the pop
order is paired with ascending indices. -/
theorem C7_split_index_code_bug :
    (splitNode splitArena 0).map (fun r =>
      (r.1, r.2.1,
       (r.2.2.get? 0).map Node.keys,
       (r.2.2.get? 5).map Node.keys,
       (r.2.2.get? 5).map Node.children,
       (r.2.2.get? 3).map (fun n => (n.parent, n.indexInParent)),
       (r.2.2.get? 4).map (fun n => (n.parent, n.indexInParent)))) =
    Except.ok (4, 5, some [2], some [6], some [3, 4],
      some (some 5, some 1), some (some 5, some 0)) := by rfl

/-- C9 counterexample: try_clone_child is not total on in-arena nodes.  On a
node with one child, index 1 is neither negative nor in range; the claim says
the call returns None, but the code reaches children[1] and panics. -/
theorem C9_counterexample :
    oneChildNode.tryCloneChild 1 = .error "panic: index out of bounds" := by rfl

/-- C9 (amended): try_clone_child returns None when the children list is
empty or the index is negative; for a non-empty children list it returns the
child at any in-range index, and panics (rather than returning None) at any
non-negative index at or past the end. -/
theorem C9_tryCloneChild_spec (n : Node) (index : Int) :
    (n.children.isEmpty = true ∨ index < 0 → n.tryCloneChild index = .ok none) ∧
    (n.children.isEmpty = false → 0 ≤ index → index.toNat < n.children.length →
      n.tryCloneChild index = .ok (n.children.get? index.toNat)) ∧
    (n.children.isEmpty = false → 0 ≤ index → n.children.length ≤ index.toNat →
      n.tryCloneChild index = .error "panic: index out of bounds") := by
  refine ⟨?_, ?_, ?_⟩
  · intro h
    rcases h with h | h
    · simp [Node.tryCloneChild, h]
    · simp [Node.tryCloneChild, h]
  · intro hne hnn hlt
    rcases hc : n.children.get? index.toNat with _ | c
    · exact absurd (List.get?_eq_none.mp hc) (by omega)
    · rw [List.get?_eq_getElem?] at hc
      simp [Node.tryCloneChild, hne, Int.not_lt.mpr hnn, hc]
  · intro hne hnn hge
    have hc : n.children.get? index.toNat = none := List.get?_eq_none.mpr hge
    rw [List.get?_eq_getElem?] at hc
    simp [Node.tryCloneChild, hne, Int.not_lt.mpr hnn, hc]

/-- Witness for C9: the amended statement applied at concrete inputs. -/
theorem C9_witness :
    oneChildNode.tryCloneChild 0 = .ok (some 1) ∧
    oneChildNode.tryCloneChild (-2) = .ok none := by
  constructor
  · have h := (C9_tryCloneChild_spec oneChildNode 0).2.1 (by decide) (by decide) (by decide)
    simpa using h
  · exact (C9_tryCloneChild_spec oneChildNode (-2)).1 (Or.inr (by decide))

/-- C10: merge_children errors exactly on non-adjacent indices, mutating
nothing in that case; on adjacent indices it appends child j's keys and
children into child i, drops slot j from the children list, keeps the node's
own keys, and touches no other node. -/
theorem C10_mergeChildren_spec (nodes : List Node) (id i j : Nat) (n intoN fromN : Node)
    (hn : nodes.get? id = some n)
    (hi : i < n.children.length) (hj : j < n.children.length)
    (hne : n.children.get ⟨i, hi⟩ ≠ n.children.get ⟨j, hj⟩)
    (hiid : n.children.get ⟨i, hi⟩ ≠ id) (hjid : n.children.get ⟨j, hj⟩ ≠ id)
    (hInto : nodes.get? (n.children.get ⟨i, hi⟩) = some intoN)
    (hFrom : nodes.get? (n.children.get ⟨j, hj⟩) = some fromN) :
    (((i : Int) - (j : Int)).natAbs ≠ 1 →
      mergeChildren nodes id i j = .ok (some "The children must be next to each other", nodes)) ∧
    (((i : Int) - (j : Int)).natAbs = 1 →
      ∃ nodes2,
        mergeChildren nodes id i j = .ok (none, nodes2) ∧
        nodes2.get? (n.children.get ⟨i, hi⟩) =
          some { intoN with keys := intoN.keys ++ fromN.keys,
                            children := intoN.children ++ fromN.children } ∧
        (nodes2.get? id).map Node.keys = some n.keys ∧
        (nodes2.get? id).map Node.children = some (n.children.eraseIdx j) ∧
        ∀ x, x ≠ id → x ≠ n.children.get ⟨i, hi⟩ → x ≠ n.children.get ⟨j, hj⟩ →
          nodes2.get? x = nodes.get? x) := by
  have hgi : n.children.get? i = some (n.children.get ⟨i, hi⟩) := List.get?_eq_get hi
  have hgj : n.children.get? j = some (n.children.get ⟨j, hj⟩) := List.get?_eq_get hj
  have hOkBind : ∀ {α β : Type} (a : α) (f : α → Except String β),
      (Except.ok a : Except String α) >>= f = f a := fun _ _ => rfl
  constructor
  · intro hd
    simp only [mergeChildren, getNode, hn, hOkBind]
    rw [if_pos hd]
  · intro hd
    obtain ⟨hidlt, -⟩ := List.get?_eq_some.mp hn
    obtain ⟨hintolt, -⟩ := List.get?_eq_some.mp hInto
    have h1 : (setNode (setNode nodes (n.children.get ⟨i, hi⟩)
        { intoN with keys := intoN.keys ++ fromN.keys,
                     children := intoN.children ++ fromN.children })
        (n.children.get ⟨j, hj⟩) { fromN with keys := [], children := [] }).get? id
        = some n := by
      rw [setNode, setNode, List.get?_set_ne _ _ hjid, List.get?_set_ne _ _ hiid, hn]
    refine ⟨setNode (setNode (setNode nodes (n.children.get ⟨i, hi⟩)
        { intoN with keys := intoN.keys ++ fromN.keys,
                     children := intoN.children ++ fromN.children })
        (n.children.get ⟨j, hj⟩) { fromN with keys := [], children := [] })
        id { n with children := n.children.eraseIdx j }, ?_, ?_, ?_, ?_, ?_⟩
    · simp only [mergeChildren, getNode, hn, hOkBind]
      rw [if_neg (by omega)]
      simp only [hgi, hgj, hOkBind, hInto, hFrom]
      rw [if_neg hne]
      simp only [hOkBind, h1, removeGet, hgj]
    · rw [setNode, List.get?_set_ne _ _ (Ne.symm hiid), setNode, setNode,
        List.get?_set_ne _ _ (Ne.symm hne), List.get?_set_eq_of_lt _ hintolt]
    · rw [setNode, List.get?_set_eq_of_lt _ (by simpa [setNode] using hidlt)]
      rfl
    · rw [setNode, List.get?_set_eq_of_lt _ (by simpa [setNode] using hidlt)]
      rfl
    · intro x hx1 hx2 hx3
      rw [setNode, setNode, setNode,
        List.get?_set_ne _ _ (Ne.symm hx1), List.get?_set_ne _ _ (Ne.symm hx3),
        List.get?_set_ne _ _ (Ne.symm hx2)]

/-- Witness for C10: merge_children on a concrete node, once with
non-adjacent indices (error, arena untouched) and once with adjacent ones. -/
theorem C10_witness :
    mergeChildren splitArena 0 2 0 = .ok (some "The children must be next to each other", splitArena) ∧
    ∃ nodes2, mergeChildren splitArena 0 1 2 = .ok (none, nodes2) := by
  constructor
  · exact (C10_mergeChildren_spec splitArena 0 2 0
      { parent := none, indexInParent := none, keys := [2, 4, 6],
        children := [1, 2, 3, 4], order := 3 }
      { parent := some 0, indexInParent := some 2, keys := [5], children := [], order := 3 }
      { parent := some 0, indexInParent := some 0, keys := [1], children := [], order := 3 }
      rfl (by decide) (by decide) (by decide) (by decide) (by decide) rfl rfl).1 (by decide)
  · obtain ⟨nodes2, hEq, _⟩ := (C10_mergeChildren_spec splitArena 0 1 2
      { parent := none, indexInParent := none, keys := [2, 4, 6],
        children := [1, 2, 3, 4], order := 3 }
      { parent := some 0, indexInParent := some 1, keys := [3], children := [], order := 3 }
      { parent := some 0, indexInParent := some 2, keys := [5], children := [], order := 3 }
      rfl (by decide) (by decide) (by decide) (by decide) (by decide) rfl rfl).2 (by decide)
    exact ⟨nodes2, hEq⟩

theorem fin_eq_of_val {n : Nat} (a : Fin n) (x : Nat) (h : x < n)
    (hv : (a : Nat) = x) : a = ⟨x, h⟩ := Fin.ext hv

theorem fin_lt_mk {n : Nat} (a : Fin n) (x : Nat) (h : x < n)
    (hv : (a : Nat) < x) : a < ⟨x, h⟩ := by
  simpa [Fin.lt_def] using hv

theorem mk_lt_fin {n : Nat} (a : Fin n) (x : Nat) (h : x < n)
    (hv : x < (a : Nat)) : (⟨x, h⟩ : Fin n) < a := by
  simpa [Fin.lt_def] using hv

/-- Counting lemma: when a predicate holds exactly on the first m positions
of a list, countP is m. -/
theorem countP_boundary (l : List Nat) (p : Nat → Bool) (m : Nat) (hm : m ≤ l.length)
    (h1 : ∀ (a : Fin l.length), (a : Nat) < m → p (l.get a) = true)
    (h2 : ∀ (a : Fin l.length), m ≤ (a : Nat) → p (l.get a) = false) :
    l.countP p = m := by
  conv_lhs => rw [← List.take_append_drop m l]
  rw [List.countP_append]
  have hlt : (l.take m).length = m := by
    rw [List.length_take]; omega
  have ht : (l.take m).countP p = (l.take m).length := by
    rw [List.countP_eq_length]
    intro a ha
    obtain ⟨i, hi⟩ := List.mem_iff_get.mp ha
    have him : (i : Nat) < m := by have := i.isLt; omega
    have hil : (i : Nat) < l.length := by omega
    have hgt : l.get ⟨(i : Nat), hil⟩ = (l.take m).get ⟨(i : Nat), by omega⟩ :=
      List.get_take l hil him
    rw [← hi]
    have : (l.take m).get i = l.get ⟨(i : Nat), hil⟩ := by
      rw [hgt]
    rw [this]
    exact h1 ⟨(i : Nat), hil⟩ him
  have hd : (l.drop m).countP p = 0 := by
    rw [List.countP_eq_zero]
    intro a ha
    obtain ⟨i, hi⟩ := List.mem_iff_get.mp ha
    have hld : (l.drop m).length = l.length - m := List.length_drop m l
    have hil : m + (i : Nat) < l.length := by
      have := i.isLt; omega
    have hgt : l.get ⟨m + (i : Nat), hil⟩ = (l.drop m).get ⟨(i : Nat), by omega⟩ :=
      List.get_drop l hil
    have hx : (l.drop m).get i = l.get ⟨m + (i : Nat), hil⟩ := by
      rw [hgt]
    rw [← hi, hx, h2 ⟨m + (i : Nat), hil⟩ (Nat.le_add_right m _)]
    simp
  rw [ht, hd, hlt]
  omega

/-- Loop invariant proof for the binary search of find_key_index: on a
strictly sorted key list, with everything left of the window below the key,
everything right of it above, and (away from the right edge) the window's
last element at least the key, the loop returns and its result satisfies
SearchSpec. -/
theorem findKeyIndexLoop_spec (keys : List Nat) (key : Nat)
    (hs : ∀ (a b : Fin keys.length), a < b → keys.get a < keys.get b) :
    ∀ (fuel : Nat) (s e : Int), 0 ≤ s → s ≤ e → e ≤ (keys.length : Int) - 1 →
    (e - s).toNat < fuel →
    (∀ (a : Fin keys.length), ((a : Nat) : Int) < s → keys.get a < key) →
    (∀ (a : Fin keys.length), e < ((a : Nat) : Int) → key < keys.get a) →
    (e < (keys.length : Int) - 1 →
      ∀ (he : e.toNat < keys.length), key ≤ keys.get ⟨e.toNat, he⟩) →
    ∃ r, findKeyIndexLoop keys key fuel s e = .ok r ∧ SearchSpec keys key r := by
  intro fuel
  induction fuel with
  | zero =>
    intro s e _ _ _ hfuel _ _ _
    exact absurd hfuel (by omega)
  | succ fuel ih =>
    intro s e h0 hse hel hfuel hlo hhi hi5
    have hlen1 : 1 ≤ keys.length := by omega
    have hmidb : s ≤ calculateMid s e ∧ calculateMid s e ≤ e := by
      unfold calculateMid; omega
    have hmid0 : 0 ≤ calculateMid s e := le_trans h0 hmidb.1
    have hmidlt : (calculateMid s e).toNat < keys.length := by omega
    have hmidcast : (((calculateMid s e).toNat : Nat) : Int) = calculateMid s e := by omega
    have hgd : keys.getD (calculateMid s e).toNat 0 = keys.get ⟨(calculateMid s e).toNat, hmidlt⟩ := by
      rw [List.getD_eq_get?, List.get?_eq_get hmidlt]; rfl
    simp only [findKeyIndexLoop]
    rw [if_pos (show e ≥ s from hse)]
    rw [hgd]
    by_cases hA : keys.get ⟨(calculateMid s e).toNat, hmidlt⟩ = key
    · rw [if_pos hA]
      refine ⟨_, rfl, ?_, ?_, ?_⟩
      · intro i hi
        cases hi
        exact ⟨hmidlt, hA⟩
      · intro j hj
        cases hj
      · intro _
        rfl
    · rw [if_neg hA]
      by_cases hB : (calculateMid s e).toNat = 0 ∧ keys.get ⟨(calculateMid s e).toNat, hmidlt⟩ > key
      · rw [if_pos hB]
        have hall : ∀ (a : Fin keys.length), key < keys.get a := by
          intro a
          rcases Nat.eq_zero_or_pos (a : Nat) with hz | hp
          · have : a = ⟨(calculateMid s e).toNat, hmidlt⟩ :=
              fin_eq_of_val a _ hmidlt (by omega)
            rw [this]
            exact hB.2
          · have h1 : keys.get ⟨(calculateMid s e).toNat, hmidlt⟩ < keys.get a :=
              hs _ a (mk_lt_fin a _ hmidlt (by omega))
            exact lt_trans hB.2 h1
        refine ⟨_, rfl, ?_, ?_, ?_⟩
        · intro i hi
          cases hi
        · intro j hj
          cases hj
          refine ⟨?_, ?_, by rw [hB.1]; omega, ?_⟩
          · intro hmem
            obtain ⟨a, ha⟩ := List.mem_iff_get.mp hmem
            exact absurd (ha ▸ hall a) (lt_irrefl key)
          · rw [hB.1]
            symm
            apply countP_boundary keys _ 0 (by omega)
            · intro a ha; omega
            · intro a _
              simp only [decide_eq_false_iff_not, not_lt]
              exact le_of_lt (hall a)
          · intro a
            rw [hB.1]
            exact ⟨fun h => absurd h (by omega), fun _ => hall a⟩
        · intro hmem
          obtain ⟨a, ha⟩ := List.mem_iff_get.mp hmem
          exact absurd (ha ▸ hall a) (lt_irrefl key)
      · rw [if_neg hB]
        by_cases hC : (calculateMid s e).toNat = keys.length - 1 ∧ keys.get ⟨(calculateMid s e).toNat, hmidlt⟩ < key
        · rw [if_pos hC]
          have hall : ∀ (a : Fin keys.length), keys.get a < key := by
            intro a
            rcases Nat.lt_or_ge (a : Nat) ((calculateMid s e).toNat) with hp | hz
            · exact lt_trans (hs a ⟨(calculateMid s e).toNat, hmidlt⟩ (fin_lt_mk a _ hmidlt hp)) hC.2
            · have : a = ⟨(calculateMid s e).toNat, hmidlt⟩ :=
                fin_eq_of_val a _ hmidlt (by have := a.isLt; omega)
              rw [this]
              exact hC.2
          refine ⟨_, rfl, ?_, ?_, ?_⟩
          · intro i hi
            cases hi
          · intro j hj
            cases hj
            refine ⟨?_, ?_, by rw [hC.1]; omega, ?_⟩
            · intro hmem
              obtain ⟨a, ha⟩ := List.mem_iff_get.mp hmem
              exact absurd (ha ▸ hall a) (lt_irrefl key)
            · rw [hC.1]
              symm
              have := countP_boundary keys (fun k => decide (k < key)) keys.length (le_refl _)
                (fun a _ => by simpa using hall a) (fun a ha => by have := a.isLt; omega)
              omega
            · intro a
              rw [hC.1]
              refine ⟨fun _ => hall a, fun h => absurd h (by have := a.isLt; omega)⟩
          · intro hmem
            obtain ⟨a, ha⟩ := List.mem_iff_get.mp hmem
            exact absurd (ha ▸ hall a) (lt_irrefl key)
        · rw [if_neg hC]
          by_cases hD : keys.get ⟨(calculateMid s e).toNat, hmidlt⟩ > key ∧ keys.getD ((calculateMid s e).toNat - 1) 0 < key
          · rw [if_pos hD]
            have hmidpos : 1 ≤ (calculateMid s e).toNat := by
              rcases Nat.eq_zero_or_pos ((calculateMid s e).toNat) with hz | hp
              · exact absurd ⟨hz, hD.1⟩ hB
              · omega
            have hm1lt : (calculateMid s e).toNat - 1 < keys.length := by omega
            have hgd1 : keys.getD ((calculateMid s e).toNat - 1) 0 = keys.get ⟨(calculateMid s e).toNat - 1, hm1lt⟩ := by
              rw [List.getD_eq_get?, List.get?_eq_get hm1lt]; rfl
            have hprev : keys.get ⟨(calculateMid s e).toNat - 1, hm1lt⟩ < key := by
              rw [← hgd1]; exact hD.2
            have hlow : ∀ (a : Fin keys.length), (a : Nat) < (calculateMid s e).toNat → keys.get a < key := by
              intro a ha
              rcases Nat.lt_or_ge (a : Nat) ((calculateMid s e).toNat - 1) with hp | hz
              · exact lt_trans (hs a ⟨(calculateMid s e).toNat - 1, hm1lt⟩ (fin_lt_mk a _ hm1lt hp)) hprev
              · have : a = ⟨(calculateMid s e).toNat - 1, hm1lt⟩ :=
                  fin_eq_of_val a _ hm1lt (by omega)
                rw [this]; exact hprev
            have hhigh : ∀ (a : Fin keys.length), (calculateMid s e).toNat ≤ (a : Nat) → key < keys.get a := by
              intro a ha
              rcases Nat.lt_or_ge ((calculateMid s e).toNat) (a : Nat) with hp | hz
              · exact lt_trans hD.1 (hs ⟨(calculateMid s e).toNat, hmidlt⟩ a (mk_lt_fin a _ hmidlt hp))
              · have : a = ⟨(calculateMid s e).toNat, hmidlt⟩ :=
                  fin_eq_of_val a _ hmidlt (by omega)
                rw [this]; exact hD.1
            refine ⟨_, rfl, ?_, ?_, ?_⟩
            · intro i hi
              cases hi
            · intro j hj
              cases hj
              refine ⟨?_, ?_, by omega, ?_⟩
              · intro hmem
                obtain ⟨a, ha⟩ := List.mem_iff_get.mp hmem
                rcases Nat.lt_or_ge (a : Nat) ((calculateMid s e).toNat) with hp | hz
                · exact absurd (ha ▸ hlow a hp) (lt_irrefl key)
                · exact absurd (ha ▸ hhigh a hz) (lt_irrefl key)
              · symm
                apply countP_boundary keys _ ((calculateMid s e).toNat) (by omega)
                · intro a ha
                  simpa using hlow a ha
                · intro a ha
                  simp only [decide_eq_false_iff_not, not_lt]
                  exact le_of_lt (hhigh a ha)
              · intro a
                exact ⟨hlow a, hhigh a⟩
            · intro hmem
              obtain ⟨a, ha⟩ := List.mem_iff_get.mp hmem
              rcases Nat.lt_or_ge (a : Nat) ((calculateMid s e).toNat) with hp | hz
              · exact absurd (ha ▸ hlow a hp) (lt_irrefl key)
              · exact absurd (ha ▸ hhigh a hz) (lt_irrefl key)
          · rw [if_neg hD]
            by_cases hE : keys.get ⟨(calculateMid s e).toNat, hmidlt⟩ > key
            · rw [if_pos hE]
              have hmidpos : 1 ≤ (calculateMid s e).toNat := by
                rcases Nat.eq_zero_or_pos ((calculateMid s e).toNat) with hz | hp
                · exact absurd ⟨hz, hE⟩ hB
                · omega
              have hm1lt : (calculateMid s e).toNat - 1 < keys.length := by omega
              have hgd1 : keys.getD ((calculateMid s e).toNat - 1) 0 = keys.get ⟨(calculateMid s e).toNat - 1, hm1lt⟩ := by
                rw [List.getD_eq_get?, List.get?_eq_get hm1lt]; rfl
              have hprevge : key ≤ keys.get ⟨(calculateMid s e).toNat - 1, hm1lt⟩ := by
                by_contra hcon
                exact hD ⟨hE, by rw [hgd1]; omega⟩
              have hsgt : s < calculateMid s e := by
                rcases lt_or_eq_of_le hmidb.1 with h | h
                · exact h
                · exfalso
                  have : ((((calculateMid s e).toNat - 1 : Nat)) : Int) < s := by omega
                  have hlt := hlo ⟨(calculateMid s e).toNat - 1, hm1lt⟩ this
                  omega
              refine ih s (calculateMid s e - 1) h0 (by omega) (by omega) (by omega) hlo ?_ ?_
              · intro a ha
                rcases Nat.lt_or_ge ((calculateMid s e).toNat) (a : Nat) with hp | hz
                · exact lt_trans hE (hs ⟨(calculateMid s e).toNat, hmidlt⟩ a (mk_lt_fin a _ hmidlt hp))
                · have : a = ⟨(calculateMid s e).toNat, hmidlt⟩ :=
                    fin_eq_of_val a _ hmidlt (by omega)
                  rw [this]; exact hE
              · intro _ he
                have : (calculateMid s e - 1).toNat = (calculateMid s e).toNat - 1 := by omega
                rw [show (⟨(calculateMid s e - 1).toNat, he⟩ : Fin keys.length) = ⟨(calculateMid s e).toNat - 1, hm1lt⟩ from Fin.ext this]
                exact hprevge
            · rw [if_neg hE]
              have hlt : keys.get ⟨(calculateMid s e).toNat, hmidlt⟩ < key :=
                lt_of_le_of_ne (not_lt.mp hE) hA
              have hmide : calculateMid s e < e := by
                rcases lt_or_eq_of_le hmidb.2 with h | h
                · exact h
                · exfalso
                  have hne : (calculateMid s e).toNat ≠ keys.length - 1 := by
                    intro hcon
                    exact hC ⟨hcon, hlt⟩
                  have helt : e < (keys.length : Int) - 1 := by omega
                  have := hi5 helt (by omega)
                  have heq : (⟨e.toNat, by omega⟩ : Fin keys.length) = ⟨(calculateMid s e).toNat, hmidlt⟩ := by
                    apply Fin.ext
                    show e.toNat = (calculateMid s e).toNat
                    omega
                  rw [heq] at this
                  omega
              refine ih (calculateMid s e + 1) e (by omega) (by omega) hel (by omega) ?_ hhi hi5
              intro a ha
              rcases Nat.lt_or_ge (a : Nat) ((calculateMid s e).toNat) with hp | hz
              · exact lt_trans (hs a ⟨(calculateMid s e).toNat, hmidlt⟩ (fin_lt_mk a _ hmidlt hp)) hlt
              · have : a = ⟨(calculateMid s e).toNat, hmidlt⟩ :=
                  fin_eq_of_val a _ hmidlt (by omega)
                rw [this]; exact hlt

/-- find_key_index on sorted unique keys: it returns a result satisfying
SearchSpec. -/
theorem findKeyIndex_ok (n : Node) (key : Nat) (hs : n.keys.Pairwise (· < ·)) :
    ∃ r, n.findKeyIndex key = .ok r ∧ SearchSpec n.keys key r := by
  have hsg : ∀ (a b : Fin n.keys.length), a < b → n.keys.get a < n.keys.get b :=
    List.pairwise_iff_get.mp hs
  by_cases hE : n.keys.isEmpty
  · have hnil : n.keys = [] := List.isEmpty_iff.mp hE
    refine ⟨.NotFound 0, by simp [Node.findKeyIndex, hE], ?_, ?_, ?_⟩
    · intro i h
      cases h
    · intro j hj
      cases hj
      rw [hnil]
      refine ⟨List.not_mem_nil key, rfl, by simp, ?_⟩
      intro a
      exact absurd a.isLt (by simp)
    · intro hmem
      rw [hnil] at hmem
      cases hmem
  · have hlen : 1 ≤ n.keys.length := by
      cases hk : n.keys with
      | nil => rw [hk] at hE; simp at hE
      | cons a l => simp [hk]
    obtain ⟨r, hr, hspec⟩ := findKeyIndexLoop_spec n.keys key hsg
      (n.keys.length + 1) 0 ((n.keys.length : Int) - 1)
      (by omega) (by omega) (by omega) (by omega)
      (fun a ha => absurd ha (by omega))
      (fun a ha => absurd ha (by have := a.isLt; omega))
      (fun h => absurd h (by omega))
    exact ⟨r, by simp [Node.findKeyIndex, hE, hr], hspec⟩

/-- C8: on a node with sorted, unique keys, find_key_index never panics;
it answers Found i exactly when the key sits at index i, and otherwise
NotFound j where j is the number of keys strictly below the searched key,
i.e. the sorted insertion slot (and child index in an internal node). -/
theorem C8_findKeyIndex_spec (n : Node) (key : Nat) (hs : n.keys.Pairwise (· < ·)) :
    ∃ r, n.findKeyIndex key = .ok r ∧
      (∀ i, r = SearchStatus.Found i ↔ n.keys.get? i = some key) ∧
      (∀ j, r = SearchStatus.NotFound j →
        key ∉ n.keys ∧ j = n.keys.countP (fun k => decide (k < key))) := by
  have hsg : ∀ (a b : Fin n.keys.length), a < b → n.keys.get a < n.keys.get b :=
    List.pairwise_iff_get.mp hs
  obtain ⟨r, hr, hspec⟩ := findKeyIndex_ok n key hs
  refine ⟨r, hr, ?_, ?_⟩
  · intro i
    constructor
    · intro h
      obtain ⟨hilt, hiq⟩ := hspec.1 i h
      rw [List.get?_eq_get hilt, hiq]
    · intro h
      have hilt : i < n.keys.length := by
        by_contra hc
        rw [List.get?_eq_none.mpr (by omega)] at h
        cases h
      have hig : n.keys.get ⟨i, hilt⟩ = key := by
        rw [List.get?_eq_get hilt] at h
        exact Option.some.inj h
      have hmem : key ∈ n.keys := by
        rw [← hig]
        exact List.get_mem _ _ _
      have hf := hspec.2.2 hmem
      cases hrr : r with
      | NotFound j =>
        rw [hrr] at hf
        cases hf
      | Found i2 =>
        obtain ⟨h2lt, h2q⟩ := hspec.1 i2 hrr
        have hii : i2 = i := by
          by_contra hne2
          rcases Nat.lt_or_ge i2 i with hlt2 | hge
          · have := hsg ⟨i2, h2lt⟩ ⟨i, hilt⟩ (by exact Fin.mk_lt_mk.mpr hlt2)
            rw [h2q, hig] at this
            exact lt_irrefl key this
          · have hlt3 : i < i2 := by omega
            have := hsg ⟨i, hilt⟩ ⟨i2, h2lt⟩ (by exact Fin.mk_lt_mk.mpr hlt3)
            rw [h2q, hig] at this
            exact lt_irrefl key this
        rw [hii]
  · intro j hj
    obtain ⟨h1, h2, -, -⟩ := hspec.2.1 j hj
    exact ⟨h1, h2⟩

/-- Witness for C8: the theorem applied to a concrete sorted node. -/
theorem C8_witness :
    ∃ r, Node.findKeyIndex
      { parent := none, indexInParent := none, keys := [5, 10, 15, 20],
        children := [], order := 9 } 12 = .ok r ∧
      r = SearchStatus.NotFound 2 := by
  obtain ⟨r, hr, hfound, hnf⟩ := C8_findKeyIndex_spec
    { parent := none, indexInParent := none, keys := [5, 10, 15, 20],
      children := [], order := 9 } 12 (by decide)
  refine ⟨r, hr, ?_⟩
  cases hrr : r with
  | Found i =>
    have := (hfound i).mp hrr
    have hlt : i < 4 := by
      by_contra hc
      rw [List.get?_eq_none.mpr (by simpa using by omega : ([5, 10, 15, 20] : List Nat).length ≤ i)] at this
      cases this
    interval_cases i <;> simp_all
  | NotFound j =>
    obtain ⟨-, hcount⟩ := hnf j hrr
    simp at hcount
    rw [hcount]

/-! Toolbox for the insertion proof (C3): characterisations of the list
primitives, then the insertion-sort loop of add_key. -/

theorem listSwap_cons (c : α) (l : List α) (i j : Nat) :
    listSwap (c :: l) (i + 1) (j + 1) = c :: listSwap l i j := by
  unfold listSwap
  rw [List.get?_cons_succ, List.get?_cons_succ]
  cases hi : l.get? i with
  | none =>
    cases hj : l.get? j <;> rfl
  | some a =>
    cases hj : l.get? j with
    | none => rfl
    | some b => simp [List.set_cons_succ]

theorem listSwap_adjacent (A B : List α) (x y : α) :
    listSwap (A ++ x :: y :: B) (A.length + 1) A.length = A ++ y :: x :: B := by
  induction A with
  | nil =>
    unfold listSwap
    simp
  | cons c A ih =>
    have : (c :: A ++ x :: y :: B) = c :: (A ++ x :: y :: B) := rfl
    rw [List.cons_append, show (c :: A).length + 1 = (A.length + 1) + 1 by simp,
      show (c :: A).length = A.length + 1 by simp, listSwap_cons, ih, List.cons_append]

theorem listPop_spec (l : List α) (x : α) :
    listPop (l ++ [x]) = some (l, x) := by
  induction l with
  | nil => rfl
  | cons a l ih =>
    cases l with
    | nil => simp [listPop]
    | cons b l2 =>
      rw [List.cons_append]
      unfold listPop
      rw [List.cons_append] at ih ⊢
      simp only [ih]

/-- The insertion-sort loop: starting from S ++ v :: B where v must bubble
left through S, with B the already-shifted tail above v, the loop succeeds
and produces a sorted list holding exactly S, v and B. -/
theorem addKeyLoop_spec : ∀ (fuel : Nat) (S B : List Nat) (v : Nat),
    S ≠ [] →
    S.length + 2 ≤ fuel →
    S.Pairwise (· < ·) →
    v ∉ S →
    (∀ b ∈ B, v < b) →
    (∀ s ∈ S, ∀ b ∈ B, s < b) →
    B.Pairwise (· < ·) →
    ∃ out, addKeyLoop fuel (S ++ v :: B) S.length (S.length - 1) = .ok out ∧
      out.Pairwise (· < ·) ∧
      (∀ x, x ∈ out ↔ x ∈ S ∨ x = v ∨ x ∈ B) ∧
      out.length = S.length + B.length + 1 := by
  intro fuel
  induction fuel with
  | zero =>
    intro S B v hSne hfuel _ _ _ _ _
    exact absurd hfuel (by omega)
  | succ fuel ih =>
    intro S B v hSne hfuel hSsort hvS hvB hSB hBsort
    rcases List.eq_nil_or_concat S with hnil | ⟨A, x, hAx⟩
    · exact absurd hnil hSne
    rw [List.concat_eq_append] at hAx
    subst hAx
    obtain ⟨hAsort, hxx, hAx⟩ := List.pairwise_append.mp hSsort
    have hAltx : ∀ s ∈ A, s < x := fun s hsA => hAx s hsA x (List.mem_singleton_self x)
    have hSform : (A ++ [x]) ++ v :: B = A ++ x :: v :: B := by
      simp
    have hlenS : (A ++ [x]).length = A.length + 1 := by simp
    have hgNew : (A ++ x :: v :: B).getD (A.length + 1) 0 = v := by
      rw [List.getD_eq_get?, List.get?_append_right (by omega)]
      simp
    have hgCur : (A ++ x :: v :: B).getD A.length 0 = x := by
      rw [List.getD_eq_get?, List.get?_append_right (by omega)]
      simp
    rw [hSform, hlenS]
    simp only [addKeyLoop, Nat.add_sub_cancel]
    rw [hgNew, hgCur]
    by_cases hvx : v < x
    · rw [if_pos hvx, listSwap_adjacent]
      cases hA : A with
      | nil =>
        subst hA
        simp only [List.length_nil, List.nil_append]
        rw [if_neg (by omega)]
        have hfge : 2 ≤ fuel := by
          simp only [List.nil_append, List.length_append, List.length_nil,
            List.length_cons] at hfuel
          omega
        cases fuel with
        | zero => exact absurd hfge (by omega)
        | succ fuel2 =>
          simp only [addKeyLoop]
          have hg1 : (v :: x :: B).getD 1 0 = x := rfl
          have hg0 : (v :: x :: B).getD 0 0 = v := rfl
          rw [hg1, hg0, if_neg (by omega)]
          refine ⟨v :: x :: B, rfl, ?_, ?_, by simp; omega⟩
          · refine List.pairwise_cons.mpr ⟨?_, List.pairwise_cons.mpr ⟨?_, hBsort⟩⟩
            · intro b hb
              rcases List.mem_cons.mp hb with hbx | hbB
              · rw [hbx]; exact hvx
              · exact hvB b hbB
            · intro b hb
              exact hSB x (by simp) b hb
          · intro y
            simp only [List.mem_cons, List.mem_append, List.mem_singleton]
            tauto
      | cons a A2 =>
        rw [if_pos (by simp [hA])]
        have hrec := ih A (x :: B) v (by simp [hA]) (by simp at hfuel ⊢; omega)
          hAsort (fun hc => hvS (List.mem_append_left _ hc))
          (by
            intro b hb
            rcases List.mem_cons.mp hb with hbx | hbB
            · rw [hbx]; exact hvx
            · exact hvB b hbB)
          (by
            intro sa hsa b hb
            rcases List.mem_cons.mp hb with hbx | hbB
            · rw [hbx]; exact hAltx sa hsa
            · exact hSB sa (List.mem_append_left _ hsa) b hbB)
          (List.pairwise_cons.mpr ⟨fun b hb => hSB x (by simp) b hb, hBsort⟩)
        obtain ⟨out, hout, hosort, homem, holen⟩ := hrec
        rw [hA] at hout homem holen
        refine ⟨out, hout, hosort, ?_, ?_⟩
        · intro y
          rw [homem y]
          simp only [List.mem_append, List.mem_singleton, List.mem_cons]
          tauto
        · rw [holen]
          simp only [List.length_append, List.length_cons, List.length_nil]
          omega
    · rw [if_neg hvx]
      have hxv : x < v := by
        rcases Nat.lt_or_ge x v with h | h
        · exact h
        · exfalso
          apply hvS
          have hveq : v = x := by omega
          rw [hveq]
          exact List.mem_append_right _ (List.mem_singleton_self x)
      refine ⟨A ++ x :: v :: B, rfl, ?_, ?_,
        by simp only [List.length_append, List.length_cons, List.length_nil]; omega⟩
      · have hSv : ∀ s ∈ A ++ [x], s < v := by
          intro s hs
          rcases List.mem_append.mp hs with hsa | hsx
          · exact lt_trans (hAltx s hsa) hxv
          · rw [List.mem_singleton.mp hsx]; exact hxv
        have heq : A ++ x :: v :: B = (A ++ [x]) ++ v :: B := by simp
        rw [heq]
        refine List.pairwise_append.mpr ⟨hSsort, ?_, ?_⟩
        · refine List.pairwise_cons.mpr ⟨hvB, hBsort⟩
        · intro s hs b hb
          rcases List.mem_cons.mp hb with hbv | hbB
          · rw [hbv]; exact hSv s hs
          · exact hSB s hs b hbB
      · intro y
        simp only [List.mem_append, List.mem_singleton, List.mem_cons]
        tauto

/-- Node::add_key on a node with sorted unique keys and a fresh key: it
succeeds, and the keys become a sorted list holding exactly the old keys and
the new one. -/
theorem addKey_spec (n : Node) (v : Nat) (hs : n.keys.Pairwise (· < ·)) (hv : v ∉ n.keys) :
    ∃ ks, n.addKey v = .ok { n with keys := ks } ∧
      ks.Pairwise (· < ·) ∧ (∀ x, x ∈ ks ↔ x ∈ n.keys ∨ x = v) ∧
      ks.length = n.keys.length + 1 := by
  unfold Node.addKey
  cases hk : n.keys with
  | nil =>
    refine ⟨[v], ?_, ?_, ?_, ?_⟩
    all_goals simp
  | cons a l =>
    have hlen : ((a :: l) ++ [v]).length - 1 = (a :: l).length := by simp
    rw [hk] at hs hv
    obtain ⟨out, hout, hosort, homem, holen⟩ :=
      addKeyLoop_spec (((a :: l) ++ [v]).length + 2) (a :: l) [] v (by simp)
        (by simp) hs hv (by simp) (by simp) (by simp)
    simp only [hlen]
    rw [if_neg (by simp)]
    refine ⟨out, ?_, hosort, ?_, by rw [holen]; simp⟩
    · rw [hout]
      rfl
    · intro x
      rw [homem x]
      simp

/-! Well-formedness for the insertion proof. -/

theorem mem_keysBelow_succ {fuel : Nat} {nodes : List Node} {id : Nat} {n : Node}
    (hn : nodes.get? id = some n) (x : Nat) :
    x ∈ keysBelow (fuel + 1) nodes id ↔
      x ∈ n.keys ∨ ∃ c ∈ n.children, x ∈ keysBelow fuel nodes c := by
  simp only [keysBelow, hn, List.mem_append, List.mem_flatten, List.mem_map]
  constructor
  · rintro (hx | ⟨L, ⟨c, hc, hcl⟩, hxL⟩)
    · exact Or.inl hx
    · exact Or.inr ⟨c, hc, hcl ▸ hxL⟩
  · rintro (hx | ⟨c, hc, hxc⟩)
    · exact Or.inl hx
    · exact Or.inr ⟨keysBelow fuel nodes c, ⟨c, hc, rfl⟩, hxc⟩

theorem keysOfD_subset_keysBelow {fuel : Nat} {nodes : List Node} {id : Nat}
    (x : Nat) (hx : x ∈ keysOfD nodes id) : x ∈ keysBelow (fuel + 1) nodes id := by
  unfold keysOfD at hx
  cases hn : nodes.get? id with
  | none => rw [hn] at hx; cases hx
  | some n =>
    rw [hn] at hx
    exact (mem_keysBelow_succ hn x).mpr (Or.inl hx)

theorem getD_eq_get_of_lt (l : List Nat) (i : Nat) (h : i < l.length) :
    l.getD i 0 = l.get ⟨i, h⟩ := by
  rw [List.getD_eq_get?, List.get?_eq_get h]
  rfl

/-- Unpacking one layer of goodB. -/
theorem goodB_elim {fuel : Nat} {nodes : List Node} {id : Nat} {n : Node}
    (hn : nodes.get? id = some n) (hg : goodB (fuel + 1) nodes id = true) :
    n.keys.Pairwise (· < ·) ∧
    (n.children = [] ∨
      (n.children.length = n.keys.length + 1 ∧
       (∀ c ∈ n.children, goodB fuel nodes c = true) ∧
       (∀ ci (hci : ci < n.children.length),
         ∀ k ∈ keysBelow fuel nodes (n.children.get ⟨ci, hci⟩),
         ∀ kj (hkj : kj < n.keys.length),
           (ci ≤ kj → k < n.keys.get ⟨kj, hkj⟩) ∧
           (kj < ci → n.keys.get ⟨kj, hkj⟩ < k)))) := by
  simp only [goodB, hn, Bool.and_eq_true, Bool.or_eq_true, decide_eq_true_eq,
    beq_iff_eq, List.all_eq_true, List.isEmpty_iff, List.mem_range] at hg
  obtain ⟨hsort, hrest⟩ := hg
  refine ⟨hsort, ?_⟩
  rcases hrest with hempty | ⟨⟨hcount, hchildren⟩, hsep⟩
  · exact Or.inl hempty
  · refine Or.inr ⟨hcount, hchildren, ?_⟩
    intro ci hci k hk kj hkj
    have hsep2 := hsep ci hci k
      (by rw [getD_eq_get_of_lt n.children ci hci]; exact hk) kj hkj
    constructor
    · intro hle
      rw [if_pos hle] at hsep2
      rw [← getD_eq_get_of_lt n.keys kj hkj]
      exact of_decide_eq_true hsep2
    · intro hlt
      rw [if_neg (by omega)] at hsep2
      rw [← getD_eq_get_of_lt n.keys kj hkj]
      exact of_decide_eq_true hsep2

theorem goodB_pos {fuel : Nat} {nodes : List Node} {id : Nat}
    (h : goodB fuel nodes id = true) : 1 ≤ fuel := by
  cases fuel with
  | zero => simp [goodB] at h
  | succ f => omega

theorem mem_keysOfD_below {fuel : Nat} (hf : 1 ≤ fuel) {nodes : List Node} {id : Nat}
    (x : Nat) (hx : x ∈ keysOfD nodes id) : x ∈ keysBelow fuel nodes id := by
  cases fuel with
  | zero => omega
  | succ f => exact keysOfD_subset_keysBelow x hx

/-- The find descent below a good node: it returns Ok, reports Found exactly
when the key is somewhere in the subtree, and for an absent key it stops at a
leaf that does not hold the key, along a FindPath. -/
theorem findLoop_spec (nodes : List Node) (key : Nat) :
    ∀ fuel id, goodB fuel nodes id = true →
    ∃ st resId, findLoop nodes key fuel id = .ok (st, resId) ∧
      (st.isFound = true ↔ key ∈ keysBelow fuel nodes id) ∧
      (st.isFound = false → FindPath nodes key fuel id resId ∧
        ∃ rn, nodes.get? resId = some rn ∧ rn.children = [] ∧ key ∉ rn.keys) := by
  intro fuel
  induction fuel with
  | zero =>
    intro id hg
    simp [goodB] at hg
  | succ fuel ih =>
    intro id hg
    have hOkBind : ∀ {α β : Type} (a : α) (f : α → Except String β),
        (Except.ok a : Except String α) >>= f = f a := fun _ _ => rfl
    cases hn : nodes.get? id with
    | none =>
      have hn2 := hn
      rw [List.get?_eq_getElem?] at hn2
      simp [goodB, hn2] at hg
    | some n =>
      obtain ⟨hsort, hbranch⟩ := goodB_elim hn hg
      obtain ⟨r, hr, hspec⟩ := findKeyIndex_ok n key hsort
      cases r with
      | Found i =>
        obtain ⟨hilt, hieq⟩ := hspec.1 i rfl
        refine ⟨.Found i, id, ?_, ?_, ?_⟩
        · simp only [findLoop, getNode, hn, hOkBind, hr]
          rw [if_pos (show (SearchStatus.Found i).isFound = true from rfl)]
        · constructor
          · intro _
            refine (mem_keysBelow_succ hn key).mpr (Or.inl ?_)
            rw [← hieq]
            exact List.get_mem _ _ _
          · intro _
            rfl
        · intro hcontra
          simp [SearchStatus.isFound] at hcontra
      | NotFound j =>
        obtain ⟨hnotmem, hcnt, hjle, hbound⟩ := hspec.2.1 j rfl
        rcases hbranch with hleaf | ⟨hcount, hcgood, hsep⟩
        · refine ⟨.NotFound j, id, ?_, ?_, ?_⟩
          · simp only [findLoop, getNode, hn, hOkBind, hr]
            rw [if_neg (by simp [SearchStatus.isFound])]
            simp only [SearchStatus.unwrap]
            rw [show n.tryCloneChild ((j : Nat) : Int) = .ok none from by
              simp [Node.tryCloneChild, hleaf], hOkBind]
          · constructor
            · intro hcontra
              simp [SearchStatus.isFound] at hcontra
            · intro hmem
              rcases (mem_keysBelow_succ hn key).mp hmem with h | ⟨c, hc, -⟩
              · exact absurd h hnotmem
              · rw [hleaf] at hc
                cases hc
          · intro _
            exact ⟨FindPath.stop fuel id n hn hleaf hnotmem, n, hn, hleaf, hnotmem⟩
        · have hjlt : j < n.children.length := by omega
          obtain ⟨child, hchild⟩ : ∃ c, n.children.get? j = some c :=
            ⟨_, List.get?_eq_get hjlt⟩
          have hchildget : n.children.get ⟨j, hjlt⟩ = child := by
            rw [List.get?_eq_get hjlt] at hchild
            exact Option.some.inj hchild
          have hchildmem : child ∈ n.children := by
            rw [← hchildget]
            exact List.get_mem _ _ _
          have hne_nil : n.children ≠ [] := by
            intro h
            rw [h] at hcount
            simp at hcount
          have hgchild : goodB fuel nodes child = true := hcgood child hchildmem
          have hfpos : 1 ≤ fuel := goodB_pos hgchild
          have hclone : n.tryCloneChild ((j : Nat) : Int) = .ok (some child) := by
            have hEmp : n.children.isEmpty = false := by
              cases hc : n.children with
              | nil => exact absurd hc hne_nil
              | cons a l => rfl
            have htn : ((j : Nat) : Int).toNat = j := by omega
            have hchild2 := hchild
            rw [List.get?_eq_getElem?] at hchild2
            simp [Node.tryCloneChild, hEmp, htn, hchild2]
          obtain ⟨st2, res2, hrec, hiff2, hnf2⟩ := ih child hgchild
          have hstep : findLoop nodes key (fuel + 1) id = findLoop nodes key fuel child := by
            simp only [findLoop, getNode, hn, hOkBind, hr]
            rw [if_neg (by simp [SearchStatus.isFound])]
            simp only [SearchStatus.unwrap]
            rw [hclone, hOkBind]
          refine ⟨st2, res2, by rw [hstep]; exact hrec, ?_, ?_⟩
          · constructor
            · intro hf
              exact (mem_keysBelow_succ hn key).mpr
                (Or.inr ⟨child, hchildmem, hiff2.mp hf⟩)
            · intro hmem
              rcases (mem_keysBelow_succ hn key).mp hmem with h | ⟨c, hc, hkc⟩
              · exact absurd h hnotmem
              · obtain ⟨⟨i, hi⟩, hci⟩ := List.mem_iff_get.mp hc
                by_cases hij : i = j
                · simp only [hij] at hci
                  have hcc : c = child := by
                    rw [← hci]
                    exact hchildget
                  apply hiff2.mpr
                  rw [← hcc]
                  exact hkc
                · exfalso
                  have hkc2 : key ∈ keysBelow fuel nodes (n.children.get ⟨i, hi⟩) := by
                    rw [hci]
                    exact hkc
                  rcases Nat.lt_or_ge i j with hlt | hge
                  · have hj1 : j - 1 < n.keys.length := by omega
                    have h1 := (hsep i hi key hkc2 (j - 1) hj1).1 (by omega)
                    have h2 := (hbound ⟨j - 1, hj1⟩).1 (show j - 1 < j by omega)
                    exact absurd (h1.trans h2) (lt_irrefl key)
                  · have hgt : j < i := by omega
                    have hjk : j < n.keys.length := by omega
                    have h1 := (hsep i hi key hkc2 j hjk).2 hgt
                    have h2 := (hbound ⟨j, hjk⟩).2 (show j ≤ j from le_refl j)
                    exact absurd (h2.trans h1) (lt_irrefl key)
          · intro hnf
            obtain ⟨hpath2, rn, hrn, hrleaf, hrnot⟩ := hnf2 hnf
            refine ⟨FindPath.step fuel id child res2 n j hn hcnt hnotmem hchild ?_ hpath2,
              rn, hrn, hrleaf, hrnot⟩
            intro i hi hij x hx y hy
            have hx2 : x ∈ keysBelow fuel nodes (n.children.get ⟨i, hi⟩) :=
              mem_keysOfD_below hfpos x hx
            constructor
            · intro hlt
              have hj1 : j - 1 < n.keys.length := by omega
              have hxk := (hsep i hi x hx2 (j - 1) hj1).1 (by omega)
              have hky : n.keys.get ⟨j - 1, hj1⟩ < y := by
                rcases hy with hy | hy
                · have hy2 : y ∈ keysBelow fuel nodes (n.children.get ⟨j, hjlt⟩) := by
                    rw [hchildget]
                    exact hy
                  exact (hsep j hjlt y hy2 (j - 1) hj1).2 (by omega)
                · subst hy
                  exact (hbound ⟨j - 1, hj1⟩).1 (show j - 1 < j by omega)
              exact hxk.trans hky
            · intro hgt
              have hjk : j < n.keys.length := by omega
              have hky : y < n.keys.get ⟨j, hjk⟩ := by
                rcases hy with hy | hy
                · have hy2 : y ∈ keysBelow fuel nodes (n.children.get ⟨j, hjlt⟩) := by
                    rw [hchildget]
                    exact hy
                  exact (hsep j hjlt y hy2 j hjk).1 (show j ≤ j from le_refl j)
                · subst hy
                  exact (hbound ⟨j, hjk⟩).2 (show j ≤ j from le_refl j)
              have hkx := (hsep i hi x hx2 j hjk).2 hgt
              exact hky.trans hkx

theorem setNode_length (nodes : List Node) (id : Nat) (n : Node) :
    (setNode nodes id n).length = nodes.length := List.length_set nodes id n

theorem get?_setNode_ne (nodes : List Node) (id : Nat) (n : Node) (x : Nat)
    (h : x ≠ id) : (setNode nodes id n).get? x = nodes.get? x :=
  List.get?_set_ne _ _ (Ne.symm h)

theorem get?_setNode_self (nodes : List Node) (id : Nat) (n : Node)
    (h : id < nodes.length) : (setNode nodes id n).get? id = some n :=
  List.get?_set_eq_of_lt _ h

theorem popMany_append (F R : List α) :
    popMany (F ++ R) R.length = .ok (F, R.reverse) := by
  induction R using List.reverseRecOn with
  | nil => simp [popMany]
  | append_singleton R x ih =>
    have h1 : F ++ (R ++ [x]) = (F ++ R) ++ [x] := by rw [List.append_assoc]
    have h2 : (R ++ [x]).length = R.length + 1 := by simp
    rw [h1, h2]
    simp only [popMany, listPop_spec, ih]
    simp
    rfl

theorem pairwise_take_lt_drop {l : List Nat} (hp : l.Pairwise (· < ·))
    (i j : Nat) (hij : i ≤ j) (x y : Nat) (hx : x ∈ l.take i) (hy : y ∈ l.drop j) :
    x < y := by
  have hp2 : (l.take i ++ l.drop i).Pairwise (· < ·) := by
    rw [List.take_append_drop]
    exact hp
  have hmain := (List.pairwise_append.mp hp2).2.2
  have hdd : l.drop j = (l.drop i).drop (j - i) := by
    rw [List.drop_drop]
    congr 1
    omega
  rw [hdd] at hy
  exact hmain x hx y (List.drop_subset _ _ hy)

theorem setPoppedChildrenMeta_length (cs : List Nat) :
    ∀ (nodes : List Node) (r j : Nat),
      (setPoppedChildrenMeta nodes cs r j).length = nodes.length := by
  induction cs with
  | nil => intro nodes r j; rfl
  | cons c cs ih =>
    intro nodes r j
    show (setPoppedChildrenMeta _ cs r (j + 1)).length = _
    rw [ih]
    cases h : nodes.get? c with
    | none => rfl
    | some cn => simp [setNode]

theorem setPoppedChildrenMeta_get?_notmem (cs : List Nat) :
    ∀ (nodes : List Node) (r j x : Nat), x ∉ cs →
      (setPoppedChildrenMeta nodes cs r j).get? x = nodes.get? x := by
  induction cs with
  | nil => intro nodes r j x _; rfl
  | cons c cs ih =>
    intro nodes r j x hx
    have hxc : x ≠ c := fun h => hx (h ▸ List.mem_cons_self c cs)
    have hxcs : x ∉ cs := fun h => hx (List.mem_cons_of_mem c h)
    show (setPoppedChildrenMeta _ cs r (j + 1)).get? x = _
    rw [ih _ _ _ _ hxcs]
    cases h : nodes.get? c with
    | none => rfl
    | some cn => exact get?_setNode_ne _ _ _ _ hxc

theorem updateChildrenIndexesLoop_length (cs : List Nat) :
    ∀ (nodes : List Node) (i : Nat),
      (updateChildrenIndexesLoop nodes cs i).length = nodes.length := by
  induction cs with
  | nil => intro nodes i; rfl
  | cons c cs ih =>
    intro nodes i
    show (updateChildrenIndexesLoop _ cs (i + 1)).length = _
    rw [ih]
    cases h : nodes.get? c with
    | none => rfl
    | some cn => simp [setNode]

theorem updateChildrenIndexesLoop_core (cs : List Nat) :
    ∀ (nodes : List Node) (i x : Nat),
      ((updateChildrenIndexesLoop nodes cs i).get? x).map
        (fun n => (n.parent, n.keys, n.children, n.order)) =
      (nodes.get? x).map (fun n => (n.parent, n.keys, n.children, n.order)) := by
  induction cs with
  | nil => intro nodes i x; rfl
  | cons c cs ih =>
    intro nodes i x
    show ((updateChildrenIndexesLoop _ cs (i + 1)).get? x).map _ = _
    rw [ih]
    cases h : nodes.get? c with
    | none => rfl
    | some cn =>
      by_cases hxc : x = c
      · subst hxc
        have hlt : x < nodes.length := (List.get?_eq_some.mp h).1
        rw [get?_setNode_self _ _ _ hlt, h]
        rfl
      · rw [get?_setNode_ne _ _ _ _ hxc]

/-- Success and characterization of split_node on a node with at least 3
keys: the separator is the middle key, the node keeps the first half of the
keys and children, the fresh right node (at the end of the arena) gets the
second half, and only the node and its moved children are touched. -/
theorem splitNode_ok (nodes : List Node) (id : Nat) (n : Node)
    (hn : nodes.get? id = some n) (hk : 3 ≤ n.keys.length) :
    ∃ nodes2,
      splitNode nodes id =
        .ok (n.keys.getD (n.keys.length / 2) 0, nodes.length, nodes2) ∧
      nodes2.length = nodes.length + 1 ∧
      nodes2.get? id = some { n with keys := n.keys.take (n.keys.length / 2),
                                     children := n.children.take (n.keys.length / 2 + 1) } ∧
      nodes2.get? nodes.length = some
        { parent := n.parent, indexInParent := none,
          keys := n.keys.drop (n.keys.length / 2 + 1),
          children := n.children.drop (n.keys.length / 2 + 1), order := n.order } ∧
      (∀ x, x ≠ id → x ∉ n.children → x < nodes.length → nodes2.get? x = nodes.get? x) := by
  have hOkBind : ∀ {α β : Type} (a : α) (f : α → Except String β),
      (Except.ok a : Except String α) >>= f = f a := fun _ _ => rfl
  have hidlt : id < nodes.length := (List.get?_eq_some.mp hn).1
  have hmidlt : n.keys.length / 2 < n.keys.length := by omega
  have key_split := popMany_append (n.keys.take (n.keys.length / 2 + 1))
    (n.keys.drop (n.keys.length / 2 + 1))
  rw [List.take_append_drop,
    show (n.keys.drop (n.keys.length / 2 + 1)).length =
      n.keys.length - (n.keys.length / 2 + 1) from by simp] at key_split
  have child_split := popMany_append
    (n.children.take (n.children.length - (n.children.length - (n.keys.length / 2 + 1))))
    (n.children.drop (n.children.length - (n.children.length - (n.keys.length / 2 + 1))))
  rw [List.take_append_drop,
    show (n.children.drop (n.children.length -
        (n.children.length - (n.keys.length / 2 + 1)))).length =
      n.children.length - (n.keys.length / 2 + 1) from by
        rw [List.length_drop]; omega] at child_split
  have hctake : n.children.take (n.children.length -
      (n.children.length - (n.keys.length / 2 + 1))) =
      n.children.take (n.keys.length / 2 + 1) := by
    rcases le_or_lt (n.keys.length / 2 + 1) n.children.length with h | h
    · congr 1
      omega
    · rw [List.take_of_length_le (by omega), List.take_of_length_le (by omega)]
  have hcdrop : n.children.drop (n.children.length -
      (n.children.length - (n.keys.length / 2 + 1))) =
      n.children.drop (n.keys.length / 2 + 1) := by
    rcases le_or_lt (n.keys.length / 2 + 1) n.children.length with h | h
    · congr 1
      omega
    · rw [List.drop_eq_nil_of_le (by omega), List.drop_eq_nil_of_le (by omega)]
  rw [hctake, hcdrop] at child_split
  have hlp : listPop (n.keys.take (n.keys.length / 2 + 1)) =
      some (n.keys.take (n.keys.length / 2), n.keys.getD (n.keys.length / 2) 0) := by
    have hgd : n.keys[n.keys.length / 2]? = some (n.keys.getD (n.keys.length / 2) 0) := by
      rw [List.getElem?_eq_getElem hmidlt, getD_eq_get_of_lt n.keys _ hmidlt]
      simp [List.get_eq_getElem]
    have hts : n.keys.take (n.keys.length / 2 + 1) =
        n.keys.take (n.keys.length / 2) ++ [n.keys.getD (n.keys.length / 2) 0] := by
      rw [List.take_succ, hgd]
      rfl
    rw [hts, listPop_spec]
  have hAlen : (setPoppedChildrenMeta nodes
      ((n.children.drop (n.keys.length / 2 + 1)).reverse) nodes.length 0).length =
      nodes.length := setPoppedChildrenMeta_length _ _ _ _
  refine ⟨setNode (setPoppedChildrenMeta nodes
      ((n.children.drop (n.keys.length / 2 + 1)).reverse) nodes.length 0) id
      { n with keys := n.keys.take (n.keys.length / 2),
               children := n.children.take (n.keys.length / 2 + 1) } ++
      [{ parent := n.parent, indexInParent := none,
         keys := n.keys.drop (n.keys.length / 2 + 1),
         children := n.children.drop (n.keys.length / 2 + 1), order := n.order }],
      ?_, ?_, ?_, ?_, ?_⟩
  · simp only [splitNode, getNode, hn, hOkBind, key_split, child_split, hlp,
      List.reverse_reverse]
  · rw [List.length_append, setNode_length, hAlen]
    rfl
  · rw [List.get?_append (by rw [setNode_length, hAlen]; exact hidlt),
      get?_setNode_self _ _ _ (by rw [hAlen]; exact hidlt)]
  · have hlen2 : (setNode (setPoppedChildrenMeta nodes
        ((n.children.drop (n.keys.length / 2 + 1)).reverse) nodes.length 0) id
        { n with keys := n.keys.take (n.keys.length / 2),
                 children := n.children.take (n.keys.length / 2 + 1) }).length =
        nodes.length := by
      rw [setNode_length, hAlen]
    have hcl := List.get?_concat_length (setNode (setPoppedChildrenMeta nodes
        ((n.children.drop (n.keys.length / 2 + 1)).reverse) nodes.length 0) id
        { n with keys := n.keys.take (n.keys.length / 2),
                 children := n.children.take (n.keys.length / 2 + 1) })
      { parent := n.parent, indexInParent := none,
        keys := n.keys.drop (n.keys.length / 2 + 1),
        children := n.children.drop (n.keys.length / 2 + 1), order := n.order }
    rw [hlen2] at hcl
    exact hcl
  · intro x hx1 hx2 hx3
    rw [List.get?_append (by rw [setNode_length, hAlen]; exact hx3),
      get?_setNode_ne _ _ _ _ hx1]
    exact setPoppedChildrenMeta_get?_notmem _ _ _ _ _
      (fun hmem => hx2 (List.drop_subset _ _ (List.mem_reverse.mp hmem)))

theorem get?_append_len (P : List α) (z : α) (L : List α) :
    (P ++ z :: L).get? P.length = some z := by
  rw [List.get?_append_right (le_refl _)]
  simp

theorem get?_append_len1 (P : List α) (z w : α) (L : List α) :
    (P ++ z :: w :: L).get? (P.length + 1) = some w := by
  rw [List.get?_append_right (by omega)]
  simp

/-- The shifting loop of add_child: when the new child (the split-off right
node) has its head key above every key of the node at position |A| and below
the last key of every node listed in B, the loop walks it left past B and
stops directly right of position |A|. -/
theorem addChildLoop_break (nodes : List Node) (A : List Nat) (idL rId hv : Nat)
    (nid nr : Node) (B : List Nat)
    (hid : nodes.get? idL = some nid) (hr : nodes.get? rId = some nr)
    (hhv : nr.keys.head? = some hv)
    (hlast : ∃ lv, nid.keys.getLast? = some lv ∧ lv < hv)
    (hB : ∀ b ∈ B, ∃ nb, nodes.get? b = some nb ∧
      ∃ lb, nb.keys.getLast? = some lb ∧ hv < lb) :
    ∀ (B1 B2 : List Nat) (fuel : Nat), B = B1 ++ B2 → B1.length + 1 ≤ fuel →
      addChildLoop nodes fuel ((A ++ idL :: B1) ++ rId :: B2)
        (A ++ idL :: B1).length ((A ++ idL :: B1).length - 1) =
      .ok (A ++ idL :: rId :: B) := by
  have hOkBind : ∀ {α β : Type} (a : α) (f : α → Except String β),
      (Except.ok a : Except String α) >>= f = f a := fun _ _ => rfl
  intro B1
  induction B1 using List.reverseRecOn with
  | nil =>
    intro B2 fuel hBeq hfuel
    obtain rfl : B = B2 := hBeq.trans (List.nil_append B2)
    obtain ⟨f, rfl⟩ : ∃ f, fuel = f + 1 := ⟨fuel - 1, by omega⟩
    obtain ⟨lv, hlv, hlvlt⟩ := hlast
    have hP : (A ++ [idL]).length - 1 = A.length := by simp
    have hg1 : ((A ++ [idL]) ++ rId :: B).get? A.length = some idL := by
      rw [show (A ++ [idL]) ++ rId :: B = A ++ idL :: rId :: B from by simp]
      exact get?_append_len A idL (rId :: B)
    have hg2 : ((A ++ [idL]) ++ rId :: B).get? (A ++ [idL]).length = some rId :=
      get?_append_len (A ++ [idL]) rId B
    simp only [addChildLoop, hP, hg1, hg2, hOkBind, getNode, hid, hr, hlv, hhv]
    rw [if_pos hlvlt]
    simp
  | append_singleton B1 b ih =>
    intro B2 fuel hBeq hfuel
    obtain ⟨f, rfl⟩ : ∃ f, fuel = f + 1 := ⟨fuel - 1, by omega⟩
    obtain ⟨nb, hnb, lb, hlb, hlblt⟩ := hB b (by rw [hBeq]; simp)
    have hre2 : (A ++ idL :: (B1 ++ [b])) ++ rId :: B2 =
        (A ++ idL :: B1) ++ b :: rId :: B2 := by simp
    have hPlen : (A ++ idL :: (B1 ++ [b])).length = (A ++ idL :: B1).length + 1 := by
      simp only [List.length_append, List.length_cons, List.length_nil]
      omega
    have hPlen1 : (A ++ idL :: B1).length + 1 - 1 = (A ++ idL :: B1).length := by
      omega
    have hg1 : ((A ++ idL :: (B1 ++ [b])) ++ rId :: B2).get?
        ((A ++ idL :: B1).length) = some b := by
      rw [hre2]
      exact get?_append_len _ b (rId :: B2)
    have hg2 : ((A ++ idL :: (B1 ++ [b])) ++ rId :: B2).get?
        ((A ++ idL :: B1).length + 1) = some rId := by
      rw [hre2]
      exact get?_append_len1 _ b rId B2
    have hswap : listSwap ((A ++ idL :: (B1 ++ [b])) ++ rId :: B2)
        ((A ++ idL :: B1).length + 1) ((A ++ idL :: B1).length) =
        (A ++ idL :: B1) ++ rId :: b :: B2 := by
      rw [hre2]
      exact listSwap_adjacent (A ++ idL :: B1) B2 b rId
    have hpos : 0 < (A ++ idL :: B1).length := by simp
    simp only [addChildLoop, hPlen, hPlen1, hg1, hg2, hOkBind, getNode, hnb, hr,
      hlb, hhv]
    rw [if_neg (by omega), hswap, if_pos hpos]
    exact ih (b :: B2) f (by rw [hBeq]; simp)
      (by simp only [List.length_append, List.length_cons, List.length_nil] at hfuel; omega)

theorem updateChildrenIndexesLoop_get?_notmem (cs : List Nat) :
    ∀ (nodes : List Node) (i x : Nat), x ∉ cs →
      (updateChildrenIndexesLoop nodes cs i).get? x = nodes.get? x := by
  induction cs with
  | nil => intro nodes i x _; rfl
  | cons c cs ih =>
    intro nodes i x hx
    have hxc : x ≠ c := fun h => hx (h ▸ List.mem_cons_self c cs)
    have hxcs : x ∉ cs := fun h => hx (List.mem_cons_of_mem c h)
    show (updateChildrenIndexesLoop _ cs (i + 1)).get? x = _
    rw [ih _ _ _ hxcs]
    cases h : nodes.get? c with
    | none => rfl
    | some cn => exact get?_setNode_ne _ _ _ _ hxc

/-- Success and characterization of add_child in the cascade situation: the
parent holds children A ++ [idL] ++ B, the new right node rId has its head
key above idL's last key and below the last key of every member of B; then
add_child inserts rId directly after idL, keeps the parent's other fields,
and changes at most index_in_parent fields elsewhere. -/
theorem addChild_ok (nodes : List Node) (p rId idL : Nat) (pn nr nid : Node)
    (A B : List Nat) (hv lv : Nat)
    (hp : nodes.get? p = some pn)
    (hpC : pn.children = A ++ idL :: B)
    (hr : nodes.get? rId = some nr)
    (hrp : rId ≠ p) (hridL : rId ≠ idL) (hrB : rId ∉ B)
    (hid : nodes.get? idL = some nid)
    (hlv : nid.keys.getLast? = some lv)
    (hhv : nr.keys.head? = some hv)
    (hlvlt : lv < hv)
    (hB : ∀ b ∈ B, ∃ nb, nodes.get? b = some nb ∧
      ∃ lb, nb.keys.getLast? = some lb ∧ hv < lb) :
    ∃ nodes2, addChild nodes p rId = .ok nodes2 ∧
      nodes2.length = nodes.length ∧
      (nodes2.get? p).map (fun n => (n.parent, n.keys, n.children, n.order)) =
        some (pn.parent, pn.keys, A ++ idL :: rId :: B, pn.order) ∧
      (∀ x, x ≠ p → x ∉ pn.children → x ≠ rId → nodes2.get? x = nodes.get? x) ∧
      (∀ x, x ≠ p →
        (nodes2.get? x).map (fun n => (n.parent, n.keys, n.children, n.order)) =
        (nodes.get? x).map (fun n => (n.parent, n.keys, n.children, n.order))) := by
  have hOkBind : ∀ {α β : Type} (a : α) (f : α → Except String β),
      (Except.ok a : Except String α) >>= f = f a := fun _ _ => rfl
  have hplt : p < nodes.length := (List.get?_eq_some.mp hp).1
  have hrlt : rId < nodes.length := (List.get?_eq_some.mp hr).1
  have hid6 : (setNode nodes rId
      { nr with indexInParent := some ((A ++ idL :: B).length) }).get? idL = some nid := by
    rw [get?_setNode_ne _ _ _ _ (Ne.symm hridL)]
    exact hid
  have hr6 : (setNode nodes rId
      { nr with indexInParent := some ((A ++ idL :: B).length) }).get? rId =
      some { nr with indexInParent := some ((A ++ idL :: B).length) } :=
    get?_setNode_self _ _ _ hrlt
  have hB6 : ∀ b ∈ B, ∃ nb, (setNode nodes rId
      { nr with indexInParent := some ((A ++ idL :: B).length) }).get? b = some nb ∧
      ∃ lb, nb.keys.getLast? = some lb ∧ hv < lb := by
    intro b hb
    obtain ⟨nb, hnb, lb, hlb, hlblt⟩ := hB b hb
    refine ⟨nb, ?_, lb, hlb, hlblt⟩
    rw [get?_setNode_ne _ _ _ _ (fun h => hrB (by rw [← h]; exact hb))]
    exact hnb
  have hloop := addChildLoop_break
    (setNode nodes rId { nr with indexInParent := some ((A ++ idL :: B).length) })
    A idL rId hv nid { nr with indexInParent := some ((A ++ idL :: B).length) } B
    hid6 hr6 hhv ⟨lv, hlv, hlvlt⟩ hB6 B [] (((A ++ idL :: B) ++ [rId]).length + 2)
    (List.append_nil B).symm
    (by simp only [List.length_append, List.length_cons, List.length_nil]; omega)
  have hlen1 : ((A ++ idL :: B) ++ [rId]).length - 1 = (A ++ idL :: B).length := by
    simp
  have hne0 : ¬ ((A ++ idL :: B).length = 0) := by simp
  have hgp : (setNode (setNode nodes rId
      { nr with indexInParent := some ((A ++ idL :: B).length) }) p
      { pn with children := A ++ idL :: rId :: B }).get? p =
      some { pn with children := A ++ idL :: rId :: B } := by
    apply get?_setNode_self
    rw [setNode_length]
    exact hplt
  refine ⟨updateChildrenIndexesLoop
      (setNode (setNode nodes rId
        { nr with indexInParent := some ((A ++ idL :: B).length) }) p
        { pn with children := A ++ idL :: rId :: B })
      (A ++ idL :: rId :: B) 0, ?_, ?_, ?_, ?_, ?_⟩
  · simp only [addChild, getNode, hp, hr, hOkBind, hpC, hlen1]
    rw [if_neg hne0]
    simp only [hloop, hOkBind, updateChildrenIndexes, getNode, hgp]
  · rw [updateChildrenIndexesLoop_length, setNode_length, setNode_length]
  · rw [updateChildrenIndexesLoop_core, hgp]
    rfl
  · intro x hx1 hx2 hx3
    have hnotmem : x ∉ A ++ idL :: rId :: B := by
      intro hmem
      rcases List.mem_append.mp hmem with h | h
      · refine hx2 ?_
        rw [hpC]
        exact List.mem_append_left _ h
      · rcases List.mem_cons.mp h with h2 | h2
        · refine hx2 ?_
          rw [hpC, h2]
          exact List.mem_append_right _ (List.mem_cons_self _ _)
        · rcases List.mem_cons.mp h2 with h3 | h3
          · exact hx3 h3
          · refine hx2 ?_
            rw [hpC]
            exact List.mem_append_right _ (List.mem_cons_of_mem _ h3)
    rw [updateChildrenIndexesLoop_get?_notmem _ _ _ _ hnotmem,
      get?_setNode_ne _ _ _ _ hx1, get?_setNode_ne _ _ _ _ hx3]
  · intro x hx1
    rw [updateChildrenIndexesLoop_core, get?_setNode_ne _ _ _ _ hx1]
    by_cases hxr : x = rId
    · subst hxr
      rw [get?_setNode_self _ _ _ hrlt, hr]
      rfl
    · rw [get?_setNode_ne _ _ _ _ hxr]

theorem mem_idsBelow_succ {fuel : Nat} {nodes : List Node} {id : Nat} {n : Node}
    (hn : nodes.get? id = some n) (x : Nat) :
    x ∈ idsBelow (fuel + 1) nodes id ↔
      x = id ∨ ∃ c ∈ n.children, x ∈ idsBelow fuel nodes c := by
  simp only [idsBelow, hn, List.mem_cons, List.mem_flatten, List.mem_map]
  constructor
  · rintro (h | ⟨L, ⟨c, hc, hcl⟩, hxL⟩)
    · exact Or.inl h
    · exact Or.inr ⟨c, hc, hcl ▸ hxL⟩
  · rintro (h | ⟨c, hc, hxc⟩)
    · exact Or.inl h
    · exact Or.inr ⟨idsBelow fuel nodes c, ⟨c, hc, rfl⟩, hxc⟩

theorem self_mem_idsBelow {fuel : Nat} {nodes : List Node} {id : Nat} {n : Node}
    (hn : nodes.get? id = some n) : id ∈ idsBelow (fuel + 1) nodes id := by
  simp only [idsBelow, hn]
  exact List.mem_cons_self _ _

theorem goodB_entry {fuel : Nat} {nodes : List Node} {id : Nat}
    (hg : goodB fuel nodes id = true) : ∃ n, nodes.get? id = some n := by
  cases fuel with
  | zero => simp [goodB] at hg
  | succ f =>
    cases hn : nodes.get? id with
    | none =>
      have hn2 := hn
      rw [List.get?_eq_getElem?] at hn2
      simp [goodB, hn2] at hg
    | some n => exact ⟨n, rfl⟩

theorem self_mem_idsBelow_of_good {fuel : Nat} {nodes : List Node} {id : Nat}
    (hg : goodB fuel nodes id = true) : id ∈ idsBelow fuel nodes id := by
  obtain ⟨n, hn⟩ := goodB_entry hg
  obtain ⟨f, rfl⟩ : ∃ f, fuel = f + 1 := ⟨fuel - 1, by have := goodB_pos hg; omega⟩
  exact self_mem_idsBelow hn

theorem flatten_nodup_mem {l : List (List α)} (h : l.flatten.Nodup) {s : List α}
    (hs : s ∈ l) : s.Nodup := by
  induction l with
  | nil => cases hs
  | cons a l ih =>
    rw [List.flatten_cons] at h
    rcases List.mem_cons.mp hs with rfl | hs2
    · exact (List.nodup_append.mp h).1
    · exact ih (List.nodup_append.mp h).2.1 hs2

theorem flatten_map_disjoint {f : Nat → List Nat} {cs : List Nat}
    (h : ((cs.map f).flatten).Nodup) {a b : Nat} (ha : a ∈ cs) (hb : b ∈ cs)
    (hab : a ≠ b) (x : Nat) (hxa : x ∈ f a) : x ∉ f b := by
  induction cs with
  | nil => cases ha
  | cons c cs ih =>
    rw [List.map_cons, List.flatten_cons] at h
    obtain ⟨h1, h2, h3⟩ := List.nodup_append.mp h
    rcases List.mem_cons.mp ha with rfl | ha2
    · rcases List.mem_cons.mp hb with heq | hb2
      · exact absurd heq.symm hab
      · intro hxb
        exact h3 hxa (List.mem_flatten.mpr ⟨f b, List.mem_map_of_mem _ hb2, hxb⟩)
    · rcases List.mem_cons.mp hb with heq | hb2
      · subst heq
        intro hxb
        exact h3 hxb (List.mem_flatten.mpr ⟨f a, List.mem_map_of_mem _ ha2, hxa⟩)
      · exact ih h2 ha2 hb2

theorem nodup_of_flatten_map {f : Nat → List Nat} {cs : List Nat}
    (h : ((cs.map f).flatten).Nodup) (hself : ∀ c ∈ cs, c ∈ f c) : cs.Nodup := by
  induction cs with
  | nil => exact List.nodup_nil
  | cons c cs ih =>
    rw [List.map_cons, List.flatten_cons] at h
    obtain ⟨h1, h2, h3⟩ := List.nodup_append.mp h
    rw [List.nodup_cons]
    refine ⟨?_, ih h2 (fun x hx => hself x (List.mem_cons_of_mem _ hx))⟩
    intro hc
    exact h3 (hself c (List.mem_cons_self _ _))
      (List.mem_flatten.mpr ⟨f c, List.mem_map_of_mem _ hc,
        hself c (List.mem_cons_self _ _)⟩)

/-- Turning the downward find path for an absent key into the upward chain of
facts the split cascade consumes: any bubbling values below the leaf and any
contaminated ids below the leaf can be carried up level by level. -/
theorem findPath_upFacts (nodes : List Node) (key order : Nat)
    (hA : ArenaWF nodes order) :
    ∀ fuel id leafId, FindPath nodes key fuel id leafId →
    goodB fuel nodes id = true →
    (idsBelow fuel nodes id).Nodup →
    ∀ d,
    (∀ ys pb, (∀ y ∈ ys, y ∈ keysBelow fuel nodes id ∨ y = key) →
      (∀ x ∈ pb, x ∈ idsBelow fuel nodes id) →
      UpFacts nodes key id ys pb d) →
    ∃ fl d2, 1 ≤ fl ∧
      (∀ ys pb, (∀ y ∈ ys, y ∈ keysBelow fl nodes leafId ∨ y = key) →
        (∀ x ∈ pb, x ∈ idsBelow fl nodes leafId) →
        UpFacts nodes key leafId ys pb d2) := by
  intro fuel id leafId hfp
  induction hfp with
  | stop f id2 n hn hleaf hnot =>
    intro hg hnd d hctx
    exact ⟨f + 1, d, by omega, hctx⟩
  | step f id2 child leafId2 n j hn hjv hnot hchild hF hrest ih =>
    intro hg hnd d hctx
    obtain ⟨hsort, hbranch⟩ := goodB_elim hn hg
    have hjlt : j < n.children.length := (List.get?_eq_some.mp hchild).1
    have hchildget : n.children.get ⟨j, hjlt⟩ = child := by
      rw [List.get?_eq_get hjlt] at hchild
      exact Option.some.inj hchild
    have hchildmem : child ∈ n.children := by
      rw [← hchildget]
      exact List.get_mem _ _ _
    have hnonempty : n.children ≠ [] := by
      intro h
      rw [h] at hjlt
      simp at hjlt
    rcases hbranch with hleaf | ⟨hcount, hcgood, hsep⟩
    · exact absurd hleaf hnonempty
    have hgc : goodB f nodes child = true := hcgood child hchildmem
    obtain ⟨nchild, hnchild⟩ := goodB_entry hgc
    have hfpos : 1 ≤ f := goodB_pos hgc
    have hexp : idsBelow (f + 1) nodes id2 =
        id2 :: (n.children.map (idsBelow f nodes)).flatten := by
      have hn2 := hn
      rw [List.get?_eq_getElem?] at hn2
      simp [idsBelow, hn2]
    rw [hexp] at hnd
    have hndtail : ((n.children.map (idsBelow f nodes)).flatten).Nodup :=
      (List.nodup_cons.mp hnd).2
    have hidnotin : id2 ∉ (n.children.map (idsBelow f nodes)).flatten :=
      (List.nodup_cons.mp hnd).1
    have hndchild : (idsBelow f nodes child).Nodup :=
      flatten_nodup_mem hndtail (List.mem_map_of_mem _ hchildmem)
    have hsubchild : ∀ x, x ∈ idsBelow f nodes child →
        x ∈ (n.children.map (idsBelow f nodes)).flatten :=
      fun x hx => List.mem_flatten.mpr ⟨_, List.mem_map_of_mem _ hchildmem, hx⟩
    have hidnotbelow : id2 ∉ idsBelow f nodes child :=
      fun h => hidnotin (hsubchild _ h)
    have hgrand : ∀ g ∈ nchild.children, g ∈ idsBelow f nodes child := by
      intro g hgmem
      obtain ⟨f2, rfl⟩ : ∃ f2, f = f2 + 1 := ⟨f - 1, by omega⟩
      obtain ⟨-, hbr2⟩ := goodB_elim hnchild hgc
      rcases hbr2 with hempty | ⟨-, hcg2, -⟩
      · rw [hempty] at hgmem
        cases hgmem
      · exact (mem_idsBelow_succ hnchild g).mpr
          (Or.inr ⟨g, hgmem, self_mem_idsBelow_of_good (hcg2 g hgmem)⟩)
    have hid2lt : id2 < nodes.length := (List.get?_eq_some.mp hn).1
    have hgeq : nodes.get ⟨id2, hid2lt⟩ = n := by
      rw [List.get?_eq_get hid2lt] at hn
      exact Option.some.inj hn
    have hparent : nchild.parent = some id2 := by
      obtain ⟨-, -, -, h4, -⟩ := hA
      exact h4 id2 hid2lt child (by rw [hgeq]; exact hchildmem) nchild hnchild
    have hdisjkeys : ∀ y, y ∈ keysBelow f nodes child → y ∉ n.keys := by
      intro y hy hymem
      obtain ⟨⟨kj, hkj⟩, hkg⟩ := List.mem_iff_get.mp hymem
      have hs2 := hsep j hjlt y (by rw [hchildget]; exact hy) kj hkj
      rcases Nat.lt_or_ge kj j with hlt | hge
      · have h2 := hs2.2 hlt
        rw [hkg] at h2
        exact lt_irrefl y h2
      · have h2 := hs2.1 hge
        rw [hkg] at h2
        exact lt_irrefl y h2
    have hsib : ∀ c ∈ n.children, c ≠ child → c ∉ idsBelow f nodes child := by
      intro c hc hne
      exact flatten_map_disjoint hndtail hc hchildmem hne c
        (self_mem_idsBelow_of_good (hcgood c hc))
    refine ih hgc hndchild (d + 1) ?_
    intro ys pb hys hpb
    refine UpFacts.up child id2 nchild n j ys pb d hnchild hparent hn hchild
      ?_ ?_ ?_ ?_ ?_ ?_ ?_
    · intro i hi hij x hx y hy
      exact hF i hi hij x hx y (hys y hy)
    · intro y hy
      rcases hys y hy with h | h
      · exact hdisjkeys y h
      · rw [h]
        exact hnot
    · refine ⟨fun h => hidnotbelow (hpb _ h), ?_, fun h => hidnotbelow (hgrand _ h)⟩
      intro h
      apply hidnotbelow
      rw [h]
      exact self_mem_idsBelow_of_good hgc
    · intro c hc hne
      exact ⟨fun h => hsib c hc hne (hpb _ h), hne,
        fun h => hsib c hc hne (hgrand _ h)⟩
    · exact nodup_of_flatten_map hndtail
        (fun c hc => self_mem_idsBelow_of_good (hcgood c hc))
    · intro hc
      exact hidnotin (List.mem_flatten.mpr ⟨_, List.mem_map_of_mem _ hc,
        self_mem_idsBelow_of_good (hcgood id2 hc)⟩)
    · apply hctx
      · intro y hy
        rcases List.mem_append.mp hy with h | h
        · rcases hys y h with h2 | h2
          · exact Or.inl ((mem_keysBelow_succ hn y).mpr (Or.inr ⟨child, hchildmem, h2⟩))
          · exact Or.inr h2
        · exact Or.inl ((mem_keysBelow_succ hn y).mpr (Or.inl h))
      · intro x hx
        rcases List.mem_append.mp hx with h | h
        · exact (mem_idsBelow_succ hn x).mpr (Or.inr ⟨child, hchildmem, hpb _ h⟩)
        · rcases List.mem_cons.mp h with rfl | h2
          · exact (mem_idsBelow_succ hn x).mpr
              (Or.inr ⟨x, hchildmem, self_mem_idsBelow_of_good hgc⟩)
          · exact (mem_idsBelow_succ hn x).mpr
              (Or.inr ⟨child, hchildmem, hgrand _ h2⟩)

theorem nodup_all_lt_length {l : List Nat} (h : l.Nodup) (n : Nat)
    (hb : ∀ x ∈ l, x < n) : l.length ≤ n := by
  have hcard : l.toFinset.card = l.length := List.toFinset_card_of_nodup h
  rw [← hcard]
  have hsub : l.toFinset ⊆ Finset.range n := by
    intro x hx
    rw [Finset.mem_range]
    exact hb x (List.mem_toFinset.mp hx)
  calc l.toFinset.card ≤ (Finset.range n).card := Finset.card_le_card hsub
    _ = n := Finset.card_range n

/-- The ids along an upward chain are distinct valid ids, so the chain is no
longer than the arena. -/
theorem upFacts_path (nodes : List Node) (key : Nat) :
    ∀ {d id : Nat} {ys pb : List Nat}, UpFacts nodes key id ys pb d →
    ∃ path : List Nat, path.length = d ∧
      (∀ x ∈ path, x ∉ pb ∧ x ≠ id ∧ x < nodes.length) ∧
      (id :: path).Nodup ∧ id < nodes.length := by
  intro d id ys pb h
  induction h with
  | root id2 n ys pb hn hp =>
    exact ⟨[], rfl, by simp, List.nodup_singleton _, (List.get?_eq_some.mp hn).1⟩
  | up id2 p n pn j ys pb d hn hparent hpn hchild hF hdisj hpf hsf hnodup hps hrest ih =>
    obtain ⟨path, hlen, hmem, hnd, hplt⟩ := ih
    refine ⟨p :: path, by simp [hlen], ?_, ?_, (List.get?_eq_some.mp hn).1⟩
    · intro x hx
      rcases List.mem_cons.mp hx with rfl | hx2
      · exact ⟨hpf.1, hpf.2.1, hplt⟩
      · obtain ⟨h1, h2, h3⟩ := hmem x hx2
        refine ⟨fun hc => h1 (List.mem_append.mpr (Or.inl hc)), ?_, h3⟩
        intro hc
        refine h1 (List.mem_append.mpr (Or.inr ?_))
        rw [hc]
        exact List.mem_cons_self _ _
    · rw [List.nodup_cons]
      refine ⟨?_, hnd⟩
      intro hc
      rcases List.mem_cons.mp hc with h | h
      · exact hpf.2.1 h.symm
      · exact (hmem id2 h).1 (List.mem_append.mpr (Or.inr (List.mem_cons_self _ _)))

theorem upFacts_depth_le {nodes : List Node} {key : Nat} {d id : Nat}
    {ys pb : List Nat} (h : UpFacts nodes key id ys pb d) :
    d + 1 ≤ nodes.length := by
  obtain ⟨path, hlen, hmem, hnd, hidlt⟩ := upFacts_path nodes key h
  have hb : ∀ x ∈ id :: path, x < nodes.length := by
    intro x hx
    rcases List.mem_cons.mp hx with rfl | hx2
    · exact hidlt
    · exact (hmem x hx2).2.2
  have := nodup_all_lt_length hnd nodes.length hb
  simp only [List.length_cons, hlen] at this
  omega

theorem core_eq_extract {nodes : List Node} {x : Nat} {n0 : Node}
    (h : (nodes.get? x).map (fun n => (n.parent, n.keys, n.children, n.order)) =
      some (n0.parent, n0.keys, n0.children, n0.order)) :
    ∃ n1, nodes.get? x = some n1 ∧ n1.parent = n0.parent ∧ n1.keys = n0.keys ∧
      n1.children = n0.children ∧ n1.order = n0.order := by
  cases hx : nodes.get? x with
  | none =>
    rw [hx] at h
    cases h
  | some n1 =>
    rw [hx] at h
    simp only [Option.map_some', Option.some.injEq, Prod.mk.injEq] at h
    exact ⟨n1, rfl, h.1, h.2.1, h.2.2.1, h.2.2.2⟩

theorem core_eq_extract2 {nodes : List Node} {x : Nat} {pr : Option Nat}
    {ks cs : List Nat} {od : Nat}
    (h : (nodes.get? x).map (fun n => (n.parent, n.keys, n.children, n.order)) =
      some (pr, ks, cs, od)) :
    ∃ n1, nodes.get? x = some n1 ∧ n1.parent = pr ∧ n1.keys = ks ∧
      n1.children = cs ∧ n1.order = od := by
  cases hx : nodes.get? x with
  | none =>
    rw [hx] at h
    cases h
  | some n1 =>
    rw [hx] at h
    simp only [Option.map_some', Option.some.injEq, Prod.mk.injEq] at h
    exact ⟨n1, rfl, h.1, h.2.1, h.2.2.1, h.2.2.2⟩

theorem mem_drop_get {l : List Nat} {k b : Nat} (h : b ∈ l.drop k) :
    ∃ i, ∃ hi : i < l.length, k ≤ i ∧ l.get ⟨i, hi⟩ = b := by
  obtain ⟨⟨i0, hi0⟩, hg⟩ := List.mem_iff_get.mp h
  have hdl : (l.drop k).length = l.length - k := List.length_drop k l
  have hilt : k + i0 < l.length := by omega
  refine ⟨k + i0, hilt, by omega, ?_⟩
  rw [← hg, List.get_drop]

theorem list_decomp_at {l : List Nat} {j x : Nat} (h : l.get? j = some x) :
    l = l.take j ++ x :: l.drop (j + 1) := by
  have hjl : j < l.length := (List.get?_eq_some.mp h).1
  have hx : l.get ⟨j, hjl⟩ = x := by
    rw [List.get?_eq_get hjl] at h
    exact Option.some.inj h
  conv_lhs => rw [← List.take_append_drop j l]
  congr 1
  rw [List.drop_eq_get_cons hjl, hx]

theorem splitIfFullLoop_done (order : Nat) (fuel : Nat) (nodes : List Node)
    (root id : Nat) (n : Node) (hn : nodes.get? id = some n)
    (hno : n.isKeyOverflowing = false) (hf : 1 ≤ fuel) :
    splitIfFullLoop order fuel nodes root id = .ok (nodes, root) := by
  have hOkBind : ∀ {α β : Type} (a : α) (f : α → Except String β),
      (Except.ok a : Except String α) >>= f = f a := fun _ _ => rfl
  obtain ⟨f, rfl⟩ : ∃ f, fuel = f + 1 := ⟨fuel - 1, by omega⟩
  simp only [splitIfFullLoop, getNode, hn, hOkBind]
  rw [if_pos (by simp [hno])]

theorem splitIfFullLoop_ok (nodes0 : List Node) (key order : Nat)
    (hA : ArenaWF nodes0 order) :
    ∀ {d id : Nat} {ys pb : List Nat}, UpFacts nodes0 key id ys pb d →
    ∀ (nodes1 : List Node) (root fuel : Nat) (n0 n1 : Node),
    nodes0.get? id = some n0 →
    nodes1.get? id = some n1 →
    nodes0.length ≤ nodes1.length →
    (∀ x, x < nodes0.length → x ∉ pb → x ≠ id →
      (nodes1.get? x).map (fun n => (n.parent, n.keys, n.children, n.order)) =
      (nodes0.get? x).map (fun n => (n.parent, n.keys, n.children, n.order))) →
    n1.keys.Pairwise (· < ·) →
    n1.keys ≠ [] →
    (∀ x ∈ n1.keys, x ∈ ys) →
    n1.parent = n0.parent →
    n1.order = n0.order →
    (∀ c ∈ n1.children, c ∈ n0.children ∨ nodes0.length ≤ c) →
    d + 2 ≤ fuel →
    ∃ nodes2 root2, splitIfFullLoop order fuel nodes1 root id = .ok (nodes2, root2) := by
  intro d id ys pb hUp
  induction hUp with
  | root id2 n ys pb hn0c hproot =>
    intro nodes1 root fuel n0 n1 hn0 hn1 hlen hframe hsort hne hys hpar hord hch hfuel
    have hOkBind : ∀ {α β : Type} (a : α) (f : α → Except String β),
        (Except.ok a : Except String α) >>= f = f a := fun _ _ => rfl
    obtain ⟨fl, rfl⟩ : ∃ fl, fuel = fl + 1 := ⟨fuel - 1, by omega⟩
    have hn0eq : n0 = n := by
      rw [hn0c] at hn0
      exact (Option.some.inj hn0).symm
    by_cases hov : n1.isKeyOverflowing = true
    case neg =>
      refine ⟨nodes1, root, ?_⟩
      simp only [splitIfFullLoop, getNode, hn1, hOkBind]
      rw [if_pos hov]
    case pos =>
      have hid2lt0 : id2 < nodes0.length := (List.get?_eq_some.mp hn0).1
      have hOrdEq : n0.order = order := by
        obtain ⟨-, h2, -⟩ := hA
        have h3 := h2 id2 hid2lt0
        rw [show nodes0.get ⟨id2, hid2lt0⟩ = n0 from by
          rw [List.get?_eq_get hid2lt0] at hn0
          exact Option.some.inj hn0] at h3
        exact h3
      have h3le : 3 ≤ order := hA.1
      have hov2 : n1.keys.length > n1.order - 1 := by
        have hb := hov
        unfold Node.isKeyOverflowing at hb
        exact of_decide_eq_true hb
      have hkl : 3 ≤ n1.keys.length := by
        rw [hord, hOrdEq] at hov2
        omega
      obtain ⟨N2, hsplit, hN2len, hN2id, hN2right, hN2frame⟩ :=
        splitNode_ok nodes1 id2 n1 hn1 hkl
      obtain ⟨leftN, hleftN, hleftKeys, hleftPar, hleftOrd, hleftCh⟩ :
          ∃ l, N2.get? id2 = some l ∧ l.keys = n1.keys.take (n1.keys.length / 2) ∧
            l.parent = n1.parent ∧ l.order = n1.order ∧
            l.children = n1.children.take (n1.keys.length / 2 + 1) :=
        ⟨_, hN2id, rfl, rfl, rfl, rfl⟩
      obtain ⟨rightN, hrightN, hrightKeys, hrightPar, hrightOrd, hrightCh⟩ :
          ∃ r, N2.get? nodes1.length = some r ∧
            r.keys = n1.keys.drop (n1.keys.length / 2 + 1) ∧
            r.parent = n1.parent ∧ r.order = n1.order ∧
            r.children = n1.children.drop (n1.keys.length / 2 + 1) :=
        ⟨_, hN2right, rfl, rfl, rfl, rfl⟩
      have hmidlt : n1.keys.length / 2 < n1.keys.length := by omega
      have hltake : (n1.keys.take (n1.keys.length / 2)).length = n1.keys.length / 2 := by
        rw [List.length_take]
        omega
      have hldrop : (n1.keys.drop (n1.keys.length / 2 + 1)).length =
          n1.keys.length - (n1.keys.length / 2 + 1) := List.length_drop _ _
      have hlkeys_ne : leftN.keys ≠ [] := by
        rw [hleftKeys]
        intro hcon
        rw [hcon] at hltake
        simp at hltake
        omega
      have hrkeys_ne : rightN.keys ≠ [] := by
        rw [hrightKeys]
        intro hcon
        rw [hcon] at hldrop
        simp at hldrop
        omega
      obtain ⟨lv, hlv, hlvmem⟩ : ∃ lv, leftN.keys.getLast? = some lv ∧ lv ∈ leftN.keys :=
        ⟨leftN.keys.getLast hlkeys_ne, List.getLast?_eq_getLast _ hlkeys_ne,
          List.getLast_mem hlkeys_ne⟩
      obtain ⟨hv, hhv, hhvmem⟩ : ∃ hv, rightN.keys.head? = some hv ∧ hv ∈ rightN.keys :=
        ⟨rightN.keys.head hrkeys_ne, List.head?_eq_head hrkeys_ne,
          List.head_mem hrkeys_ne⟩
      have hlvlt : lv < hv := by
        apply pairwise_take_lt_drop hsort (n1.keys.length / 2) (n1.keys.length / 2 + 1)
          (by omega)
        · rw [← hleftKeys]
          exact hlvmem
        · rw [← hrightKeys]
          exact hhvmem
      have hn1par : n1.parent = none := by
        rw [hpar, hn0eq]
        exact hproot
      have hid2lt1 : id2 < nodes1.length := by omega
      have hNAlen : (N2 ++ [Node.new order]).length = N2.length + 1 := by simp
      have hgA : (N2 ++ [Node.new order]).get? nodes1.length = some rightN := by
        rw [List.get?_append (by omega)]
        exact hrightN
      have hgB : (setNode (N2 ++ [Node.new order]) nodes1.length { rightN with parent := some N2.length }).get? id2 = some leftN := by
        rw [get?_setNode_ne _ _ _ _ (by omega), List.get?_append (by omega)]
        exact hleftN
      have hgC : (setNode (setNode (N2 ++ [Node.new order]) nodes1.length { rightN with parent := some N2.length }) id2 { leftN with parent := some N2.length }).get? N2.length = some (Node.new order) := by
        rw [get?_setNode_ne _ _ _ _ (by omega), get?_setNode_ne _ _ _ _ (by omega)]
        exact List.get?_concat_length _ _
      have haddK : (Node.new order).addKey (n1.keys.getD (n1.keys.length / 2) 0) =
          .ok { parent := none, indexInParent := none, keys := [n1.keys.getD (n1.keys.length / 2) 0], children := [], order := order } := rfl
      have hNBlen : (setNode (N2 ++ [Node.new order]) nodes1.length { rightN with parent := some N2.length }).length = N2.length + 1 := by
        rw [setNode_length, hNAlen]
      have hNClen : (setNode (setNode (N2 ++ [Node.new order]) nodes1.length { rightN with parent := some N2.length }) id2 { leftN with parent := some N2.length }).length = N2.length + 1 := by
        rw [setNode_length, hNBlen]
      have hNDlen : (setNode (setNode (setNode (N2 ++ [Node.new order]) nodes1.length { rightN with parent := some N2.length }) id2 { leftN with parent := some N2.length }) N2.length { parent := none, indexInParent := none, keys := [n1.keys.getD (n1.keys.length / 2) 0], children := [], order := order }).length = N2.length + 1 := by
        rw [setNode_length, hNClen]
      have hgNDn : (setNode (setNode (setNode (N2 ++ [Node.new order]) nodes1.length { rightN with parent := some N2.length }) id2 { leftN with parent := some N2.length }) N2.length { parent := none, indexInParent := none, keys := [n1.keys.getD (n1.keys.length / 2) 0], children := [], order := order }).get? N2.length = some { parent := none, indexInParent := none, keys := [n1.keys.getD (n1.keys.length / 2) 0], children := [], order := order } := by
        apply get?_setNode_self
        rw [hNClen]
        omega
      have hgNDid : (setNode (setNode (setNode (N2 ++ [Node.new order]) nodes1.length { rightN with parent := some N2.length }) id2 { leftN with parent := some N2.length }) N2.length { parent := none, indexInParent := none, keys := [n1.keys.getD (n1.keys.length / 2) 0], children := [], order := order }).get? id2 = some { leftN with parent := some N2.length } := by
        rw [get?_setNode_ne _ _ _ _ (by omega)]
        apply get?_setNode_self
        rw [hNBlen]
        omega
      have haddC1 : addChild (setNode (setNode (setNode (N2 ++ [Node.new order]) nodes1.length { rightN with parent := some N2.length }) id2 { leftN with parent := some N2.length }) N2.length { parent := none, indexInParent := none, keys := [n1.keys.getD (n1.keys.length / 2) 0], children := [], order := order }) N2.length id2 = .ok (setNode (setNode (setNode (setNode (setNode (N2 ++ [Node.new order]) nodes1.length { rightN with parent := some N2.length }) id2 { leftN with parent := some N2.length }) N2.length { parent := none, indexInParent := none, keys := [n1.keys.getD (n1.keys.length / 2) 0], children := [], order := order }) id2 { leftN with parent := some N2.length, indexInParent := some 0 }) N2.length { parent := none, indexInParent := none, keys := [n1.keys.getD (n1.keys.length / 2) 0], children := [id2], order := order }) := by
        simp only [addChild, getNode, hgNDn, hOkBind, hgNDid, List.nil_append,
          List.length_singleton, Nat.sub_self]
        rw [if_true]
      have hNE1len : (setNode (setNode (setNode (setNode (N2 ++ [Node.new order]) nodes1.length { rightN with parent := some N2.length }) id2 { leftN with parent := some N2.length }) N2.length { parent := none, indexInParent := none, keys := [n1.keys.getD (n1.keys.length / 2) 0], children := [], order := order }) id2 { leftN with parent := some N2.length, indexInParent := some 0 }).length = N2.length + 1 := by
        rw [setNode_length, hNDlen]
      have hNElen : (setNode (setNode (setNode (setNode (setNode (N2 ++ [Node.new order]) nodes1.length { rightN with parent := some N2.length }) id2 { leftN with parent := some N2.length }) N2.length { parent := none, indexInParent := none, keys := [n1.keys.getD (n1.keys.length / 2) 0], children := [], order := order }) id2 { leftN with parent := some N2.length, indexInParent := some 0 }) N2.length { parent := none, indexInParent := none, keys := [n1.keys.getD (n1.keys.length / 2) 0], children := [id2], order := order }).length = N2.length + 1 := by
        rw [setNode_length, hNE1len]
      have hgNEn : (setNode (setNode (setNode (setNode (setNode (N2 ++ [Node.new order]) nodes1.length { rightN with parent := some N2.length }) id2 { leftN with parent := some N2.length }) N2.length { parent := none, indexInParent := none, keys := [n1.keys.getD (n1.keys.length / 2) 0], children := [], order := order }) id2 { leftN with parent := some N2.length, indexInParent := some 0 }) N2.length { parent := none, indexInParent := none, keys := [n1.keys.getD (n1.keys.length / 2) 0], children := [id2], order := order }).get? N2.length = some { parent := none, indexInParent := none, keys := [n1.keys.getD (n1.keys.length / 2) 0], children := [id2], order := order } := by
        apply get?_setNode_self
        rw [hNE1len]
        omega
      have hgNErid : (setNode (setNode (setNode (setNode (setNode (N2 ++ [Node.new order]) nodes1.length { rightN with parent := some N2.length }) id2 { leftN with parent := some N2.length }) N2.length { parent := none, indexInParent := none, keys := [n1.keys.getD (n1.keys.length / 2) 0], children := [], order := order }) id2 { leftN with parent := some N2.length, indexInParent := some 0 }) N2.length { parent := none, indexInParent := none, keys := [n1.keys.getD (n1.keys.length / 2) 0], children := [id2], order := order }).get? nodes1.length = some { rightN with parent := some N2.length } := by
        rw [get?_setNode_ne _ _ _ _ (by omega), get?_setNode_ne _ _ _ _ (by omega),
          get?_setNode_ne _ _ _ _ (by omega), get?_setNode_ne _ _ _ _ (by omega)]
        apply get?_setNode_self
        rw [hNAlen]
        omega
      have hNFid2 : (setNode (setNode (setNode (setNode (setNode (setNode (N2 ++ [Node.new order]) nodes1.length { rightN with parent := some N2.length }) id2 { leftN with parent := some N2.length }) N2.length { parent := none, indexInParent := none, keys := [n1.keys.getD (n1.keys.length / 2) 0], children := [], order := order }) id2 { leftN with parent := some N2.length, indexInParent := some 0 }) N2.length { parent := none, indexInParent := none, keys := [n1.keys.getD (n1.keys.length / 2) 0], children := [id2], order := order }) nodes1.length { rightN with parent := some N2.length, indexInParent := some 1 }).get? id2 = some { leftN with parent := some N2.length, indexInParent := some 0 } := by
        rw [get?_setNode_ne _ _ _ _ (by omega), get?_setNode_ne _ _ _ _ (by omega)]
        apply get?_setNode_self
        rw [hNDlen]
        omega
      have hNFr : (setNode (setNode (setNode (setNode (setNode (setNode (N2 ++ [Node.new order]) nodes1.length { rightN with parent := some N2.length }) id2 { leftN with parent := some N2.length }) N2.length { parent := none, indexInParent := none, keys := [n1.keys.getD (n1.keys.length / 2) 0], children := [], order := order }) id2 { leftN with parent := some N2.length, indexInParent := some 0 }) N2.length { parent := none, indexInParent := none, keys := [n1.keys.getD (n1.keys.length / 2) 0], children := [id2], order := order }) nodes1.length { rightN with parent := some N2.length, indexInParent := some 1 }).get? nodes1.length = some { rightN with parent := some N2.length, indexInParent := some 1 } := by
        apply get?_setNode_self
        rw [hNElen]
        omega
      have hloop2 : addChildLoop (setNode (setNode (setNode (setNode (setNode (setNode (N2 ++ [Node.new order]) nodes1.length { rightN with parent := some N2.length }) id2 { leftN with parent := some N2.length }) N2.length { parent := none, indexInParent := none, keys := [n1.keys.getD (n1.keys.length / 2) 0], children := [], order := order }) id2 { leftN with parent := some N2.length, indexInParent := some 0 }) N2.length { parent := none, indexInParent := none, keys := [n1.keys.getD (n1.keys.length / 2) 0], children := [id2], order := order }) nodes1.length { rightN with parent := some N2.length, indexInParent := some 1 }) (3 + 1) (id2 :: [nodes1.length]) 1 0 =
          .ok (id2 :: [nodes1.length]) := by
        simp only [addChildLoop, List.get?_cons_zero, List.get?_cons_succ, hOkBind,
          getNode, hNFid2, hNFr, hlv, hhv]
        rw [if_pos hlvlt]
      have haddC2 : addChild (setNode (setNode (setNode (setNode (setNode (N2 ++ [Node.new order]) nodes1.length { rightN with parent := some N2.length }) id2 { leftN with parent := some N2.length }) N2.length { parent := none, indexInParent := none, keys := [n1.keys.getD (n1.keys.length / 2) 0], children := [], order := order }) id2 { leftN with parent := some N2.length, indexInParent := some 0 }) N2.length { parent := none, indexInParent := none, keys := [n1.keys.getD (n1.keys.length / 2) 0], children := [id2], order := order }) N2.length nodes1.length = .ok (updateChildrenIndexesLoop (setNode (setNode (setNode (setNode (setNode (setNode (setNode (N2 ++ [Node.new order]) nodes1.length { rightN with parent := some N2.length }) id2 { leftN with parent := some N2.length }) N2.length { parent := none, indexInParent := none, keys := [n1.keys.getD (n1.keys.length / 2) 0], children := [], order := order }) id2 { leftN with parent := some N2.length, indexInParent := some 0 }) N2.length { parent := none, indexInParent := none, keys := [n1.keys.getD (n1.keys.length / 2) 0], children := [id2], order := order }) nodes1.length { rightN with parent := some N2.length, indexInParent := some 1 }) N2.length { parent := none, indexInParent := none, keys := [n1.keys.getD (n1.keys.length / 2) 0], children := [id2, nodes1.length], order := order }) [id2, nodes1.length] 0) := by
        have hf4 : (1 : Nat) + 1 + 2 = 3 + 1 := rfl
        have hs1 : (1 : Nat) + 1 - 1 = 1 := rfl
        simp only [addChild, getNode, hgNEn, hOkBind, hgNErid, List.singleton_append,
          List.length_cons, List.length_nil, Nat.zero_add, hf4, hs1]
        rw [if_neg one_ne_zero]
        have hgNF2 : (setNode (setNode (setNode (setNode (setNode (setNode (setNode (N2 ++ [Node.new order]) nodes1.length { rightN with parent := some N2.length }) id2 { leftN with parent := some N2.length }) N2.length { parent := none, indexInParent := none, keys := [n1.keys.getD (n1.keys.length / 2) 0], children := [], order := order }) id2 { leftN with parent := some N2.length, indexInParent := some 0 }) N2.length { parent := none, indexInParent := none, keys := [n1.keys.getD (n1.keys.length / 2) 0], children := [id2], order := order }) nodes1.length { rightN with parent := some N2.length, indexInParent := some 1 }) N2.length { parent := none, indexInParent := none, keys := [n1.keys.getD (n1.keys.length / 2) 0], children := [id2, nodes1.length], order := order }).get? N2.length = some { parent := none, indexInParent := none, keys := [n1.keys.getD (n1.keys.length / 2) 0], children := [id2, nodes1.length], order := order } := by
          apply get?_setNode_self
          rw [setNode_length, hNElen]
          omega
        simp only [hloop2, hOkBind, updateChildrenIndexes, getNode, hgNF2]
      have hgNG : (updateChildrenIndexesLoop (setNode (setNode (setNode (setNode (setNode (setNode (setNode (N2 ++ [Node.new order]) nodes1.length { rightN with parent := some N2.length }) id2 { leftN with parent := some N2.length }) N2.length { parent := none, indexInParent := none, keys := [n1.keys.getD (n1.keys.length / 2) 0], children := [], order := order }) id2 { leftN with parent := some N2.length, indexInParent := some 0 }) N2.length { parent := none, indexInParent := none, keys := [n1.keys.getD (n1.keys.length / 2) 0], children := [id2], order := order }) nodes1.length { rightN with parent := some N2.length, indexInParent := some 1 }) N2.length { parent := none, indexInParent := none, keys := [n1.keys.getD (n1.keys.length / 2) 0], children := [id2, nodes1.length], order := order }) [id2, nodes1.length] 0).get? N2.length = some { parent := none, indexInParent := none, keys := [n1.keys.getD (n1.keys.length / 2) 0], children := [id2, nodes1.length], order := order } := by
        rw [updateChildrenIndexesLoop_get?_notmem _ _ _ _ (by
          intro hmem
          rcases List.mem_cons.mp hmem with h | h
          · omega
          · rcases List.mem_cons.mp h with h2 | h2
            · omega
            · cases h2)]
        apply get?_setNode_self
        rw [setNode_length, hNElen]
        omega
      have hnoov : ({ parent := none, indexInParent := none, keys := [n1.keys.getD (n1.keys.length / 2) 0], children := [id2, nodes1.length], order := order } : Node).isKeyOverflowing = false := by
        have hno : ¬ (({ parent := none, indexInParent := none, keys := [n1.keys.getD (n1.keys.length / 2) 0], children := [id2, nodes1.length], order := order } : Node).keys.length > ({ parent := none, indexInParent := none, keys := [n1.keys.getD (n1.keys.length / 2) 0], children := [id2, nodes1.length], order := order } : Node).order - 1) := by
          simp
          omega
        unfold Node.isKeyOverflowing
        exact decide_eq_false hno
      have hdone := splitIfFullLoop_done order fl (updateChildrenIndexesLoop (setNode (setNode (setNode (setNode (setNode (setNode (setNode (N2 ++ [Node.new order]) nodes1.length { rightN with parent := some N2.length }) id2 { leftN with parent := some N2.length }) N2.length { parent := none, indexInParent := none, keys := [n1.keys.getD (n1.keys.length / 2) 0], children := [], order := order }) id2 { leftN with parent := some N2.length, indexInParent := some 0 }) N2.length { parent := none, indexInParent := none, keys := [n1.keys.getD (n1.keys.length / 2) 0], children := [id2], order := order }) nodes1.length { rightN with parent := some N2.length, indexInParent := some 1 }) N2.length { parent := none, indexInParent := none, keys := [n1.keys.getD (n1.keys.length / 2) 0], children := [id2, nodes1.length], order := order }) [id2, nodes1.length] 0) N2.length N2.length
        { parent := none, indexInParent := none, keys := [n1.keys.getD (n1.keys.length / 2) 0], children := [id2, nodes1.length], order := order } hgNG hnoov (by omega)
      refine ⟨(updateChildrenIndexesLoop (setNode (setNode (setNode (setNode (setNode (setNode (setNode (N2 ++ [Node.new order]) nodes1.length { rightN with parent := some N2.length }) id2 { leftN with parent := some N2.length }) N2.length { parent := none, indexInParent := none, keys := [n1.keys.getD (n1.keys.length / 2) 0], children := [], order := order }) id2 { leftN with parent := some N2.length, indexInParent := some 0 }) N2.length { parent := none, indexInParent := none, keys := [n1.keys.getD (n1.keys.length / 2) 0], children := [id2], order := order }) nodes1.length { rightN with parent := some N2.length, indexInParent := some 1 }) N2.length { parent := none, indexInParent := none, keys := [n1.keys.getD (n1.keys.length / 2) 0], children := [id2, nodes1.length], order := order }) [id2, nodes1.length] 0), N2.length, ?_⟩
      simp only [splitIfFullLoop, getNode, hn1, hOkBind]
      rw [if_neg (by simp [hov])]
      simp only [hsplit, hOkBind, hleftN, hleftPar, hn1par, hgA, hgB, hgC, haddK,
        haddC1, haddC2, hdone]

  | up id2 p n pn j ys pb d hn0c hparent hpn hchild hF hdisj hpf hsf hnodup hps hrest ih =>
    intro nodes1 root fuel n0 n1 hn0 hn1 hlen hframe hsort hne hys hpar hord hch hfuel
    have hOkBind : ∀ {α β : Type} (a : α) (f : α → Except String β),
        (Except.ok a : Except String α) >>= f = f a := fun _ _ => rfl
    obtain ⟨fl, rfl⟩ : ∃ fl, fuel = fl + 1 := ⟨fuel - 1, by omega⟩
    have hn0eq : n0 = n := by
      rw [hn0c] at hn0
      exact (Option.some.inj hn0).symm
    by_cases hov : n1.isKeyOverflowing = true
    case neg =>
      refine ⟨nodes1, root, ?_⟩
      simp only [splitIfFullLoop, getNode, hn1, hOkBind]
      rw [if_pos hov]
    case pos =>
      have hid2lt0 : id2 < nodes0.length := (List.get?_eq_some.mp hn0).1
      have hOrdEq : n0.order = order := by
        obtain ⟨-, h2, -⟩ := hA
        have h3 := h2 id2 hid2lt0
        rw [show nodes0.get ⟨id2, hid2lt0⟩ = n0 from by
          rw [List.get?_eq_get hid2lt0] at hn0
          exact Option.some.inj hn0] at h3
        exact h3
      have h3le : 3 ≤ order := hA.1
      have hov2 : n1.keys.length > n1.order - 1 := by
        have hb := hov
        unfold Node.isKeyOverflowing at hb
        exact of_decide_eq_true hb
      have hkl : 3 ≤ n1.keys.length := by
        rw [hord, hOrdEq] at hov2
        omega
      obtain ⟨N2, hsplit, hN2len, hN2id, hN2right, hN2frame⟩ :=
        splitNode_ok nodes1 id2 n1 hn1 hkl
      obtain ⟨leftN, hleftN, hleftKeys, hleftPar, hleftOrd, hleftCh⟩ :
          ∃ l, N2.get? id2 = some l ∧ l.keys = n1.keys.take (n1.keys.length / 2) ∧
            l.parent = n1.parent ∧ l.order = n1.order ∧
            l.children = n1.children.take (n1.keys.length / 2 + 1) :=
        ⟨_, hN2id, rfl, rfl, rfl, rfl⟩
      obtain ⟨rightN, hrightN, hrightKeys, hrightPar, hrightOrd, hrightCh⟩ :
          ∃ r, N2.get? nodes1.length = some r ∧
            r.keys = n1.keys.drop (n1.keys.length / 2 + 1) ∧
            r.parent = n1.parent ∧ r.order = n1.order ∧
            r.children = n1.children.drop (n1.keys.length / 2 + 1) :=
        ⟨_, hN2right, rfl, rfl, rfl, rfl⟩
      have hmidlt : n1.keys.length / 2 < n1.keys.length := by omega
      have hmidmem : n1.keys.getD (n1.keys.length / 2) 0 ∈ n1.keys := by
        rw [getD_eq_get_of_lt _ _ hmidlt]
        exact List.get_mem _ _ _
      have hltake : (n1.keys.take (n1.keys.length / 2)).length = n1.keys.length / 2 := by
        rw [List.length_take]
        omega
      have hldrop : (n1.keys.drop (n1.keys.length / 2 + 1)).length =
          n1.keys.length - (n1.keys.length / 2 + 1) := List.length_drop _ _
      have hlkeys_ne : leftN.keys ≠ [] := by
        rw [hleftKeys]
        intro hcon
        rw [hcon] at hltake
        simp at hltake
        omega
      have hrkeys_ne : rightN.keys ≠ [] := by
        rw [hrightKeys]
        intro hcon
        rw [hcon] at hldrop
        simp at hldrop
        omega
      obtain ⟨lv, hlv, hlvmem⟩ : ∃ lv, leftN.keys.getLast? = some lv ∧ lv ∈ leftN.keys :=
        ⟨leftN.keys.getLast hlkeys_ne, List.getLast?_eq_getLast _ hlkeys_ne,
          List.getLast_mem hlkeys_ne⟩
      obtain ⟨hv, hhv, hhvmem⟩ : ∃ hv, rightN.keys.head? = some hv ∧ hv ∈ rightN.keys :=
        ⟨rightN.keys.head hrkeys_ne, List.head?_eq_head hrkeys_ne,
          List.head_mem hrkeys_ne⟩
      have hlvlt : lv < hv := by
        apply pairwise_take_lt_drop hsort (n1.keys.length / 2) (n1.keys.length / 2 + 1)
          (by omega)
        · rw [← hleftKeys]
          exact hlvmem
        · rw [← hrightKeys]
          exact hhvmem
      have hn1par : n1.parent = some p := by
        rw [hpar, hn0eq]
        exact hparent
      have hid2lt1 : id2 < nodes1.length := by omega
      have hplt0 : p < nodes0.length := (List.get?_eq_some.mp hpn).1
      have hpneid : p ≠ id2 := hpf.2.1
      have hpn_get : nodes0.get ⟨p, hplt0⟩ = pn := by
        rw [List.get?_eq_get hplt0] at hpn
        exact Option.some.inj hpn
      have hpnotchild1 : p ∉ n1.children := by
        intro hc
        rcases hch p hc with h | h
        · rw [hn0eq] at h
          exact hpf.2.2 h
        · omega
      have hc2 : (nodes1.get? p).map (fun n => (n.parent, n.keys, n.children, n.order)) =
          some (pn.parent, pn.keys, pn.children, pn.order) := by
        rw [hframe p hplt0 hpf.1 hpneid, hpn]
        rfl
      obtain ⟨pn1, hpn1, hpn1par, hpn1keys, hpn1ch, hpn1ord⟩ := core_eq_extract hc2
      have hpnsorted : pn.keys.Pairwise (· < ·) := by
        obtain ⟨-, -, -, -, -, -, h7⟩ := hA
        have h8 := h7 p hplt0
        rw [hpn_get] at h8
        exact h8
      have hsorted1 : pn1.keys.Pairwise (· < ·) := by
        rw [hpn1keys]
        exact hpnsorted
      have hmidys : n1.keys.getD (n1.keys.length / 2) 0 ∈ ys := hys _ hmidmem
      have hnotmem1 : n1.keys.getD (n1.keys.length / 2) 0 ∉ pn1.keys := by
        rw [hpn1keys]
        exact hdisj _ hmidys
      obtain ⟨pks, haddkP, hpksSorted, hpksMem, hpksLen⟩ :=
        addKey_spec pn1 (n1.keys.getD (n1.keys.length / 2) 0) hsorted1 hnotmem1
      have hgB2 : (setNode N2 nodes1.length { rightN with parent := some p }).get? id2 = some leftN := by
        rw [get?_setNode_ne _ _ _ _ (by omega)]
        exact hleftN
      have hgCp : (setNode (setNode N2 nodes1.length { rightN with parent := some p }) id2 { leftN with parent := some p }).get? p = some pn1 := by
        rw [get?_setNode_ne _ _ _ _ hpneid, get?_setNode_ne _ _ _ _ (by omega),
          hN2frame p hpneid hpnotchild1 (by omega)]
        exact hpn1
      have hNBlen : (setNode N2 nodes1.length { rightN with parent := some p }).length = nodes1.length + 1 := by
        rw [setNode_length, hN2len]
      have hNClen : (setNode (setNode N2 nodes1.length { rightN with parent := some p }) id2 { leftN with parent := some p }).length = nodes1.length + 1 := by
        rw [setNode_length, hNBlen]
      have hNDlen : (setNode (setNode (setNode N2 nodes1.length { rightN with parent := some p }) id2 { leftN with parent := some p }) p { pn1 with keys := pks }).length = nodes1.length + 1 := by
        rw [setNode_length, hNClen]
      have hNDp : (setNode (setNode (setNode N2 nodes1.length { rightN with parent := some p }) id2 { leftN with parent := some p }) p { pn1 with keys := pks }).get? p = some { pn1 with keys := pks } := by
        apply get?_setNode_self
        rw [hNClen]
        omega
      have hNDrid : (setNode (setNode (setNode N2 nodes1.length { rightN with parent := some p }) id2 { leftN with parent := some p }) p { pn1 with keys := pks }).get? nodes1.length = some { rightN with parent := some p } := by
        rw [get?_setNode_ne _ _ _ _ (by omega), get?_setNode_ne _ _ _ _ (by omega)]
        apply get?_setNode_self
        rw [hN2len]
        omega
      have hNDid2 : (setNode (setNode (setNode N2 nodes1.length { rightN with parent := some p }) id2 { leftN with parent := some p }) p { pn1 with keys := pks }).get? id2 = some { leftN with parent := some p } := by
        rw [get?_setNode_ne _ _ _ _ (Ne.symm hpneid)]
        apply get?_setNode_self
        rw [hNBlen]
        omega
      obtain ⟨h1A, h2A, h3A, h4A, h5A, h6A, h7A⟩ := hA
      have hchlt : ∀ c ∈ pn.children, c < nodes0.length := by
        intro c hc
        apply h3A p hplt0
        rw [hpn_get]
        exact hc
      have hdecomp : pn.children =
          pn.children.take j ++ id2 :: pn.children.drop (j + 1) := list_decomp_at hchild
      have hnodup2 : (pn.children.take j ++ id2 :: pn.children.drop (j + 1)).Nodup := by
        rw [← hdecomp]
        exact hnodup
      have hid2notB : id2 ∉ pn.children.drop (j + 1) :=
        (List.nodup_cons.mp (List.nodup_append.mp hnodup2).2.1).1
      have hpC : ({ pn1 with keys := pks } : Node).children =
          pn.children.take j ++ id2 :: pn.children.drop (j + 1) := by
        show pn1.children = _
        rw [hpn1ch]
        exact hdecomp
      have hBfacts : ∀ b ∈ pn.children.drop (j + 1), ∃ nb, (setNode (setNode (setNode N2 nodes1.length { rightN with parent := some p }) id2 { leftN with parent := some p }) p { pn1 with keys := pks }).get? b = some nb ∧
          ∃ lb, nb.keys.getLast? = some lb ∧ hv < lb := by
        intro b hb
        have hbmemP : b ∈ pn.children := List.drop_subset _ _ hb
        have hbne2 : b ≠ id2 := fun h => hid2notB (h ▸ hb)
        have hbnep : b ≠ p := fun h => hps (h ▸ hbmemP)
        have hblt0 : b < nodes0.length := hchlt b hbmemP
        have hsfb := hsf b hbmemP hbne2
        have hbn1ch : b ∉ n1.children := by
          intro h
          rcases hch b h with h2 | h2
          · rw [hn0eq] at h2
            exact hsfb.2.2 h2
          · omega
        obtain ⟨nb0, hnb0⟩ : ∃ nb, nodes0.get? b = some nb :=
          ⟨_, List.get?_eq_get hblt0⟩
        have hcb : (nodes1.get? b).map (fun n => (n.parent, n.keys, n.children, n.order)) =
            some (nb0.parent, nb0.keys, nb0.children, nb0.order) := by
          rw [hframe b hblt0 hsfb.1 hbne2, hnb0]
          rfl
        obtain ⟨nb1, hnb1, -, hnb1keys, -, -⟩ := core_eq_extract hcb
        have hb_get : nodes0.get ⟨b, hblt0⟩ = nb0 := by
          rw [List.get?_eq_get hblt0] at hnb0
          exact Option.some.inj hnb0
        have hbpar : nb0.parent = some p := by
          apply h4A p hplt0 b _ nb0 hnb0
          rw [hpn_get]
          exact hbmemP
        have hbkeysne : nb0.keys ≠ [] := by
          have h9 := h5A b hblt0
          rw [hb_get] at h9
          apply h9
          rw [hbpar]
          simp
        have hNDb : (setNode (setNode (setNode N2 nodes1.length { rightN with parent := some p }) id2 { leftN with parent := some p }) p { pn1 with keys := pks }).get? b = some nb1 := by
          rw [get?_setNode_ne _ _ _ _ hbnep, get?_setNode_ne _ _ _ _ hbne2,
            get?_setNode_ne _ _ _ _ (by omega),
            hN2frame b hbne2 hbn1ch (by omega)]
          exact hnb1
        have hhvys : hv ∈ ys := by
          apply hys
          apply List.drop_subset (n1.keys.length / 2 + 1) n1.keys
          rw [← hrightKeys]
          exact hhvmem
        obtain ⟨i, hi, hge, hgeteq⟩ := mem_drop_get hb
        have hvlt : hv < nb0.keys.getLast hbkeysne := by
          have h10 := hF i hi (by omega) (nb0.keys.getLast hbkeysne) (by
            rw [hgeteq]
            unfold keysOfD
            rw [hnb0]
            exact List.getLast_mem hbkeysne) hv hhvys
          exact h10.2 (by omega)
        exact ⟨nb1, hNDb, nb0.keys.getLast hbkeysne,
          by rw [hnb1keys]; exact List.getLast?_eq_getLast _ hbkeysne, hvlt⟩
      obtain ⟨N6, haddCh, hN6len, hN6p, hN6frameFull, hN6core⟩ :=
        addChild_ok (setNode (setNode (setNode N2 nodes1.length { rightN with parent := some p }) id2 { leftN with parent := some p }) p { pn1 with keys := pks }) p nodes1.length id2 { pn1 with keys := pks } { rightN with parent := some p }
          { leftN with parent := some p } (pn.children.take j) (pn.children.drop (j + 1)) hv lv
          hNDp hpC hNDrid (by omega) (by omega)
          (fun hb => by have := hchlt _ (List.drop_subset _ _ hb); omega)
          hNDid2 hlv hhv hlvlt hBfacts
      obtain ⟨pnN, hpnN, hpnNpar, hpnNkeys, hpnNch, hpnNord⟩ := core_eq_extract2 hN6p
      have hfr6 : ∀ x, x < nodes0.length → x ∉ pb ++ id2 :: n.children → x ≠ p →
          (N6.get? x).map (fun n => (n.parent, n.keys, n.children, n.order)) =
          (nodes0.get? x).map (fun n => (n.parent, n.keys, n.children, n.order)) := by
        intro x hxlt hxpb hxp
        have hxpb2 : x ∉ pb := fun h => hxpb (List.mem_append.mpr (Or.inl h))
        have hxid2 : x ≠ id2 := fun h => hxpb (List.mem_append.mpr (Or.inr
          (by rw [h]; exact List.mem_cons_self _ _)))
        have hxnch : x ∉ n.children := fun h => hxpb (List.mem_append.mpr (Or.inr
          (List.mem_cons_of_mem _ h)))
        have hxn1ch : x ∉ n1.children := by
          intro h
          rcases hch x h with h2 | h2
          · rw [hn0eq] at h2
            exact hxnch h2
          · omega
        rw [hN6core x hxp, get?_setNode_ne _ _ _ _ hxp, get?_setNode_ne _ _ _ _ hxid2,
          get?_setNode_ne _ _ _ _ (by omega), hN2frame x hxid2 hxn1ch (by omega)]
        exact hframe x hxlt hxpb2 hxid2
      have hchN : ∀ c ∈ pnN.children, c ∈ pn.children ∨ nodes0.length ≤ c := by
        intro c hc
        rw [hpnNch] at hc
        rcases List.mem_append.mp hc with h | h
        · exact Or.inl (List.take_subset _ _ h)
        · rcases List.mem_cons.mp h with h2 | h2
          · left
            rw [h2]
            rw [hdecomp]
            exact List.mem_append_right _ (List.mem_cons_self _ _)
          · rcases List.mem_cons.mp h2 with h3 | h3
            · right
              omega
            · exact Or.inl (List.drop_subset _ _ h3)
      have hysN : ∀ x ∈ pnN.keys, x ∈ ys ++ pn.keys := by
        intro x hx
        rw [hpnNkeys] at hx
        rcases (hpksMem x).mp hx with h | h
        · rw [hpn1keys] at h
          exact List.mem_append.mpr (Or.inr h)
        · rw [h]
          exact List.mem_append.mpr (Or.inl hmidys)
      obtain ⟨out, rootOut, hrec⟩ := ih N6 root fl pn pnN hpn hpnN
        (by omega)
        hfr6
        (by rw [hpnNkeys]; exact hpksSorted)
        (by
          rw [hpnNkeys]
          show pks ≠ []
          intro hcon
          rw [hcon] at hpksLen
          simp at hpksLen)
        hysN
        (by rw [hpnNpar]; show pn1.parent = pn.parent; exact hpn1par)
        (by rw [hpnNord]; show pn1.order = pn.order; exact hpn1ord)
        hchN
        (by omega)
      refine ⟨out, rootOut, ?_⟩
      simp only [splitIfFullLoop, getNode, hn1, hOkBind]
      rw [if_neg (by simp [hov])]
      simp only [hsplit, hOkBind, hleftN, hleftPar, hn1par, hrightN, hgB2, hgCp,
        haddkP, haddCh, hrec]

/-- Helper: the full well-formed-tree insertion run for an absent key. -/
theorem add_absent_ok (t : BTree) (key : Nat) (hwf : TreeWF t)
    (st : SearchStatus) (resId : Nat) (rn : Node)
    (hfl : findLoop t.nodes key (t.nodes.length + 1) t.root = .ok (st, resId))
    (hnotf : st.isFound = false)
    (hpath : FindPath t.nodes key (t.nodes.length + 1) t.root resId)
    (hrn : t.nodes.get? resId = some rn)
    (hrleaf : rn.children = [])
    (hrnot : key ∉ rn.keys) :
    ∃ t2, t.add key = .ok (none, t2) := by
  obtain ⟨hA, hrootlt, hrootpar, hgood, hnodupIds, hreach⟩ := hwf
  have hOkBind : ∀ {α β : Type} (a : α) (f : α → Except String β),
      (Except.ok a : Except String α) >>= f = f a := fun _ _ => rfl
  have hreslt : resId < t.nodes.length := (List.get?_eq_some.mp hrn).1
  have hrnsorted : rn.keys.Pairwise (· < ·) := by
    obtain ⟨-, -, -, -, -, -, h7⟩ := hA
    have h8 := h7 resId hreslt
    rw [show t.nodes.get ⟨resId, hreslt⟩ = rn from by
      rw [List.get?_eq_get hreslt] at hrn
      exact Option.some.inj hrn] at h8
    exact h8
  obtain ⟨ks, haddk, hksSorted, hksMem, hksLen⟩ := addKey_spec rn key hrnsorted hrnot
  have hctxRoot : ∀ ys pb,
      (∀ y ∈ ys, y ∈ keysBelow (t.nodes.length + 1) t.nodes t.root ∨ y = key) →
      (∀ x ∈ pb, x ∈ idsBelow (t.nodes.length + 1) t.nodes t.root) →
      UpFacts t.nodes key t.root ys pb 0 := by
    intro ys pb _ _
    obtain ⟨rootN, hrootN⟩ : ∃ rn2, t.nodes.get? t.root = some rn2 :=
      ⟨_, List.get?_eq_get hrootlt⟩
    exact UpFacts.root t.root rootN ys pb hrootN (hrootpar rootN hrootN)
  obtain ⟨fl2, d2, hflpos, hctxLeaf⟩ := findPath_upFacts t.nodes key t.order hA
    (t.nodes.length + 1) t.root resId hpath hgood hnodupIds 0 hctxRoot
  have hUp : UpFacts t.nodes key resId (key :: rn.keys) [] d2 := by
    apply hctxLeaf
    · intro y hy
      rcases List.mem_cons.mp hy with rfl | hy2
      · exact Or.inr rfl
      · left
        obtain ⟨f3, rfl⟩ : ∃ f3, fl2 = f3 + 1 := ⟨fl2 - 1, by omega⟩
        exact (mem_keysBelow_succ hrn y).mpr (Or.inl hy2)
    · intro x hx
      cases hx
  have hdepth := upFacts_depth_le hUp
  obtain ⟨outN, outR, hloopOk⟩ := splitIfFullLoop_ok t.nodes key t.order hA hUp
    (setNode t.nodes resId { rn with keys := ks }) t.root
    ((setNode t.nodes resId { rn with keys := ks }).length + 2) rn
    { rn with keys := ks }
    hrn
    (get?_setNode_self _ _ _ hreslt)
    (by rw [setNode_length])
    (by
      intro x hxlt hxpb hxne
      rw [get?_setNode_ne _ _ _ _ hxne])
    hksSorted
    (by
      intro hcon
      have : ks = [] := hcon
      rw [this] at hksLen
      simp at hksLen)
    (by
      intro x hx
      rcases (hksMem x).mp hx with h | h
      · exact List.mem_cons_of_mem _ h
      · rw [h]
        exact List.mem_cons_self _ _)
    rfl
    rfl
    (fun c hc => Or.inl hc)
    (by rw [setNode_length]; omega)
  refine ⟨{ t with nodes := outN, root := outR }, ?_⟩
  simp only [BTree.add, BTree.findInsertNode, BTree.find, hfl, hOkBind]
  rw [if_neg (by simp [hnotf])]
  simp only [hOkBind, getNode, hrn, haddk, BTree.splitIfFull, hloopOk]

theorem oneKeyTree_wf : TreeWF oneKeyTree := by
  refine ⟨⟨by decide, ?_, ?_, ?_, ?_, ?_, ?_⟩, by decide, ?_, by decide, by decide, ?_⟩
  · intro i h
    have hi : i = 0 := by
      simp [oneKeyTree] at h
      omega
    subst hi
    rfl
  · intro i h c hc
    have hi : i = 0 := by
      simp [oneKeyTree] at h
      omega
    subst hi
    exact absurd hc (List.not_mem_nil c)
  · intro i h c hc
    have hi : i = 0 := by
      simp [oneKeyTree] at h
      omega
    subst hi
    exact absurd hc (List.not_mem_nil c)
  · intro i h hpar
    have hi : i = 0 := by
      simp [oneKeyTree] at h
      omega
    subst hi
    exact absurd rfl hpar
  · intro i j hi hj hne
    have hi0 : i = 0 := by
      simp [oneKeyTree] at hi
      omega
    have hj0 : j = 0 := by
      simp [oneKeyTree] at hj
      omega
    exact absurd (hi0.trans hj0.symm) hne
  · intro i h
    have hi : i = 0 := by
      simp [oneKeyTree] at h
      omega
    subst hi
    exact List.pairwise_singleton _ _
  · intro rn hrn
    have h2 : oneKeyNode = rn := Option.some.inj hrn
    rw [← h2]
    rfl
  · intro i hlt
    have hi : i = 0 := by
      simp [oneKeyTree] at hlt
      omega
    subst hi
    decide

/-- C3: insertion into a well-formed tree of a key already in the tree
returns the duplicate-key error and leaves the tree unchanged; insertion of
an absent key returns Ok. -/
theorem C3_add_spec (t : BTree) (key : Nat) (hwf : TreeWF t) :
    (key ∈ treeKeys t → t.add key = .ok (some .ValueAlreadyExists, t)) ∧
    (key ∉ treeKeys t → ∃ t2, t.add key = .ok (none, t2)) := by
  have hOkBind : ∀ {α β : Type} (a : α) (f : α → Except String β),
      (Except.ok a : Except String α) >>= f = f a := fun _ _ => rfl
  have hgood : goodB (t.nodes.length + 1) t.nodes t.root = true := hwf.2.2.2.1
  obtain ⟨st, resId, hfl, hiff, hnf⟩ :=
    findLoop_spec t.nodes key (t.nodes.length + 1) t.root hgood
  constructor
  · intro hmem
    have hfound : st.isFound = true := hiff.mpr hmem
    simp only [BTree.add, BTree.findInsertNode, BTree.find, hfl, hOkBind]
    rw [if_pos hfound]
    rfl
  · intro hmem
    have hnotf : st.isFound = false := by
      cases hsf : st.isFound
      · rfl
      · exact absurd (hiff.mp hsf) hmem
    obtain ⟨hpath, rn, hrn, hrleaf, hrnot⟩ := hnf hnotf
    exact add_absent_ok t key hwf st resId rn hfl hnotf hpath hrn hrleaf hrnot

/-- Witness for C3: on a concrete one-key tree, adding the present key 7
reports ValueAlreadyExists with the tree unchanged, and adding the absent
key 5 returns Ok. -/
theorem C3_witness :
    oneKeyTree.add 7 = .ok (some .ValueAlreadyExists, oneKeyTree) ∧
    (∃ t2, oneKeyTree.add 5 = .ok (none, t2)) := by
  constructor
  · exact (C3_add_spec oneKeyTree 7 oneKeyTree_wf).1 (by decide)
  · exact (C3_add_spec oneKeyTree 5 oneKeyTree_wf).2 (by decide)

end BT



